import Mathlib

/-!
Verification of the `ag-usage` extension core: a shallow embedding of the
process-discovery, credential-extraction, port-discovery, port-validation,
quota-aggregation and polling-orchestration logic of the repository
(`src/history.ts` latest snapshot, `src/platform.ts`, `src/constants.ts`,
`src/utils.ts`), together with theorems settling the specification claims.

External I/O (child processes, HTTPS requests, wall clock, date parsing) is
modelled by explicit oracle parameters; everything else is translated
directly from the TypeScript source.
-/

set_option maxRecDepth 4000

namespace AgUsage

/-! ## JS-flavoured character and string primitives

The source manipulates JS strings via `includes`, `toLowerCase`, `trim`,
regular expressions and `split`.  We model strings as `String` or
`List Char` and re-implement exactly the operations used. -/

/-- `listStartsWith pat l` : `l` begins with `pat` (exact, case-sensitive). -/
def listStartsWith : List Char → List Char → Bool
  | [], _ => true
  | _ :: _, [] => false
  | p :: ps, c :: cs => p == c && listStartsWith ps cs

/-- `listHasSub pat l` : `pat` occurs as a contiguous substring of `l`.
Models JS `String.prototype.includes` (case-sensitive). -/
def listHasSub (pat : List Char) : List Char → Bool
  | [] => pat.isEmpty
  | c :: cs => listStartsWith pat (c :: cs) || listHasSub pat cs

/-- JS `haystack.includes(needle)`. -/
def strContains (s pat : String) : Bool :=
  listHasSub pat.toList s.toList

/-- JS `String.prototype.toLowerCase` (ASCII range). -/
def toLowerStr (s : String) : String :=
  String.mk (s.toList.map Char.toLower)

/-- The whitespace class used by JS `\s`, `trim` and `split(/\s+/)`
(restricted to the ASCII range, which is all that occurs here). -/
def isJsSpace (c : Char) : Bool :=
  c == ' ' || c == '\t' || c == '\n' || c == '\r' || c == '\x0b' || c == '\x0c'

/-- The JS regex word class `\w` = `[A-Za-z0-9_]`. -/
def isWordCh (c : Char) : Bool :=
  c.isAlphanum || c == '_'

/-- The class `[\w-]` used by the bare-token capture of the extractor. -/
def isWordHyphen (c : Char) : Bool :=
  c.isAlphanum || c == '_' || c == '-'

/-- Splits a maximal run of characters satisfying `p` off the front. -/
def splitRun (p : Char → Bool) : List Char → List Char × List Char
  | [] => ([], [])
  | c :: cs =>
    if p c then
      let r := splitRun p cs
      (c :: r.1, r.2)
    else ([], c :: cs)

/-- JS `String.prototype.trim` on a character list. -/
def trimChars (l : List Char) : List Char :=
  ((l.dropWhile isJsSpace).reverse.dropWhile isJsSpace).reverse

/-- Case-insensitive character comparison (the regex `i` flag). -/
def ciEq (a b : Char) : Bool :=
  a.toLower == b.toLower

/-- Splits a string on `\n` only (JS `split('\n')`). -/
def splitNlAux : List Char → List Char → List (List Char)
  | acc, [] => [acc.reverse]
  | acc, c :: rest =>
    if c = '\n' then acc.reverse :: splitNlAux [] rest
    else splitNlAux (c :: acc) rest

def splitNl (l : List Char) : List (List Char) :=
  splitNlAux [] l

/-- Splits a string on `\r\n` or `\n` (JS `split(/\r?\n/)`). -/
def splitCrLfAux : List Char → List Char → List (List Char)
  | acc, [] => [acc.reverse]
  | acc, '\r' :: '\n' :: rest => acc.reverse :: splitCrLfAux [] rest
  | acc, c :: rest =>
    if c = '\n' then acc.reverse :: splitCrLfAux [] rest
    else splitCrLfAux (c :: acc) rest

def splitCrLf (l : List Char) : List (List Char) :=
  splitCrLfAux [] l

/-- Value of a digit list, most significant first. -/
def digitsVal (l : List Char) : Nat :=
  l.foldl (fun a c => a * 10 + (c.toNat - 48)) 0

/-- JS `parseInt(s, 10)`: skip leading whitespace, optional sign, then a
nonempty digit run (trailing garbage ignored); `none` models `NaN`. -/
def parseIntJS (l : List Char) : Option Int :=
  let l1 := l.dropWhile isJsSpace
  match l1 with
  | '-' :: r =>
    let d := splitRun Char.isDigit r
    if d.1.isEmpty then none else some (-(digitsVal d.1 : Int))
  | '+' :: r =>
    let d := splitRun Char.isDigit r
    if d.1.isEmpty then none else some (digitsVal d.1 : Int)
  | r =>
    let d := splitRun Char.isDigit r
    if d.1.isEmpty then none else some (digitsVal d.1 : Int)

/-! ## Constants (`src/constants.ts`) -/

def CACHE_TTL_MS : Int := 300000
def MAX_VALID_PID : Int := 0x7FFFFFFF
def MIN_PORT : Int := 1
def MAX_PORT : Int := 65535
def FAILED_REFRESH_DELAY_MS : Nat := 5000
def MAX_FAILED_REFRESH_DELAY_MS : Nat := 60000
def MAX_PORT_VALIDATION_ATTEMPTS : Nat := 2
def DEFAULT_REFRESH_INTERVAL : Nat := 60
def MS_PER_SECOND : Nat := 1000

def PROCESS_IDENTIFIER_LANGUAGE_SERVER : String := "language_server"
def PROCESS_IDENTIFIER_ANTIGRAVITY : String := "antigravity"
def PROCESS_IDENTIFIER_CSRF_TOKEN : String := "--csrf_token"

def CATEGORY_GEMINI_PRO : String := "Gemini 3 Pro"
def CATEGORY_GEMINI_FLASH : String := "Gemini 3 Flash"
def CATEGORY_CLAUDE_GPT : String := "Claude/GPT"

def MODEL_KEYWORD_FLASH : String := "flash"
def MODEL_KEYWORD_GEMINI : String := "gemini"

/-! ## Data model (`src/types.ts`) -/

/-- A JS `number` as far as the aggregation observes it: either a finite
value (modelled as a rational) or a non-finite one (`NaN`, `±Infinity`). -/
inductive JSNum where
  | finite (q : ℚ)
  | nonfinite
  deriving DecidableEq, Repr

structure QuotaInfo where
  remainingFraction : Option JSNum
  resetTime : Option String
  deriving DecidableEq, Repr

structure ModelConfig where
  label : String
  quotaInfo : Option QuotaInfo
  deriving DecidableEq, Repr

structure QuotaGroup where
  quota : ℚ
  resetTime : Option Int
  deriving DecidableEq, Repr

structure ProcessInfo where
  pid : Int
  cmd : String
  deriving DecidableEq, Repr

structure CachedConnection where
  port : Int
  csrfToken : String
  timestamp : Int
  deriving DecidableEq, Repr

structure UsageStatistics where
  groups : List (String × QuotaGroup)
  plan : Option String
  planName : Option String
  deriving DecidableEq, Repr

instance {ε α : Type} [DecidableEq ε] [DecidableEq α] :
    DecidableEq (Except ε α) := fun a b =>
  match a, b with
  | Except.error e1, Except.error e2 =>
    if h : e1 = e2 then isTrue (by rw [h])
    else isFalse (fun hh => h (by injection hh))
  | Except.error _, Except.ok _ => isFalse (fun hh => Except.noConfusion hh)
  | Except.ok _, Except.error _ => isFalse (fun hh => Except.noConfusion hh)
  | Except.ok a1, Except.ok a2 =>
    if h : a1 = a2 then isTrue (by rw [h])
    else isFalse (fun hh => h (by injection hh))

/-! ## Validators (`src/utils.ts`) -/

def validatePid (pid : Int) : Bool :=
  pid > 0 && pid ≤ MAX_VALID_PID

def validatePort (port : Int) : Bool :=
  port ≥ MIN_PORT && port ≤ MAX_PORT

/-! ## Quota aggregation (`fetchStats`, `determineCategory` in the latest
snapshot of `src/history.ts`, lines 876-921)

The `groups` record built by `fetchStats` is modelled as an association
list in insertion order (the key order of the JS object). -/

def determineCategory (label : String) : String :=
  let lowerLabel := toLowerStr label
  if strContains lowerLabel MODEL_KEYWORD_FLASH then CATEGORY_GEMINI_FLASH
  else if strContains lowerLabel MODEL_KEYWORD_GEMINI then CATEGORY_GEMINI_PRO
  else CATEGORY_CLAUDE_GPT

/-- `modelQuota` of one raw entry, as computed by the latest `fetchStats`:
`typeof rf === 'number' && Number.isFinite(rf) ? rf : 0`. -/
def modelQuota (m : ModelConfig) : ℚ :=
  match m.quotaInfo.bind QuotaInfo.remainingFraction with
  | some (JSNum.finite q) => q
  | _ => 0

/-- The reset timestamp contributed by one raw entry: the `resetTime`
string must be present and nonempty, and `new Date(str).getTime()` must be
finite.  Date parsing is an external runtime facility, modelled by the
oracle `pd` (`none` = unparseable / non-finite timestamp). -/
def resetOf (pd : String → Option Int) (m : ModelConfig) : Option Int :=
  match m.quotaInfo.bind QuotaInfo.resetTime with
  | some s => if 0 < s.length then pd s else none
  | none => none

def lookupGroup : List (String × QuotaGroup) → String → Option QuotaGroup
  | [], _ => none
  | (c, g) :: rest, cat => if c = cat then some g else lookupGroup rest cat

/-- `groups[category] ??= { quota: 1, resetTime: null }` followed by a
mutation of the retrieved group: update in place if the key exists,
otherwise append the default group with the mutation applied. -/
def updateGroup (f : QuotaGroup → QuotaGroup) :
    List (String × QuotaGroup) → String → List (String × QuotaGroup)
  | [], cat => [(cat, f ⟨1, none⟩)]
  | (c, g) :: rest, cat =>
    if c = cat then (c, f g) :: rest
    else (c, g) :: updateGroup f rest cat

/-- The loop body of `fetchStats` applied to the group of one model's
category: lower `quota` if this model's quota is smaller, and lower
`resetTime` if this model has an earlier parseable reset time. -/
def applyModel (pd : String → Option Int) (m : ModelConfig) (g : QuotaGroup) :
    QuotaGroup :=
  let q := modelQuota m
  let g1 : QuotaGroup := if q < g.quota then { g with quota := q } else g
  match resetOf pd m with
  | none => g1
  | some t =>
    match g1.resetTime with
    | none => { g1 with resetTime := some t }
    | some r => if t < r then { g1 with resetTime := some t } else g1

def stepModel (pd : String → Option Int)
    (groups : List (String × QuotaGroup)) (m : ModelConfig) :
    List (String × QuotaGroup) :=
  updateGroup (applyModel pd m) groups (determineCategory m.label)

/-- The whole fold of `fetchStats` over `clientModelConfigs`. -/
def fetchStatsGroups (pd : String → Option Int) (models : List ModelConfig) :
    List (String × QuotaGroup) :=
  models.foldl (stepModel pd) []

/-! ## Credential extractor (`extractCsrfToken`, latest snapshot lines 671-684)

The source tries three case-insensitive regexes in order (written here
without their slash delimiters): `--csrf_token[=\s]+"([^"]+)"`,
`--csrf_token[=\s]+'([^']+)'`, `--csrf_token[=\s]+([\w-]+)`,
returning the trimmed first capture of
the first pattern that matches.  We implement JS leftmost-match semantics
directly: the separator class `[=\s]` is disjoint from every first body
character, and the quoted bodies cannot cross their terminating quote, so
greedy matching without backtracking is exact. -/

def dquoteC : Char := Char.ofNat 34

def squoteC : Char := Char.ofNat 39

def csrfLit : List Char := "--csrf_token".toList

/-- The separator class `[=\s]`. -/
def isSepCh (c : Char) : Bool :=
  c == '=' || isJsSpace c

/-- Case-insensitive literal match; returns the remainder on success. -/
def matchLit : List Char → List Char → Option (List Char)
  | [], s => some s
  | _ :: _, [] => none
  | p :: ps, c :: cs => if ciEq p c then matchLit ps cs else none

inductive TokenForm where
  | dquoted
  | squoted
  | bare
  deriving DecidableEq, Repr

/-- Body of a quoted form `q([^q]+)q`: a nonempty run of non-`q` characters
delimited by `q` on both sides; the capture is returned. -/
def matchQuoted (q : Char) : List Char → Option (List Char)
  | [] => none
  | c :: rest =>
    if c = q then
      let r := splitRun (fun d => d != q) rest
      if r.1.isEmpty then none
      else
        match r.2 with
        | [] => none
        | _ :: _ => some r.1
    else none

/-- Body of the bare form `([\w-]+)`. -/
def matchBare (cs : List Char) : Option (List Char) :=
  let r := splitRun isWordHyphen cs
  if r.1.isEmpty then none else some r.1

def matchBody : TokenForm → List Char → Option (List Char)
  | .dquoted, cs => matchQuoted dquoteC cs
  | .squoted, cs => matchQuoted squoteC cs
  | .bare, cs => matchBare cs

/-- One regex alternative anchored at the head of `cs`:
literal `--csrf_token` (case-insensitive), then `[=\s]+`, then the body. -/
def matchFormAt (tf : TokenForm) (cs : List Char) : Option (List Char) :=
  match matchLit csrfLit cs with
  | none => none
  | some rest =>
    let sep := splitRun isSepCh rest
    if sep.1.isEmpty then none else matchBody tf sep.2

/-- Leftmost match of one regex alternative (JS `String.prototype.match`). -/
def scanFor (tf : TokenForm) : List Char → Option (List Char)
  | [] => none
  | c :: cs =>
    match matchFormAt tf (c :: cs) with
    | some r => some r
    | none => scanFor tf cs

def extractCsrfToken (cmd : String) : Option String :=
  match scanFor .dquoted cmd.toList with
  | some t => some (String.mk (trimChars t))
  | none =>
    match scanFor .squoted cmd.toList with
    | some t => some (String.mk (trimChars t))
    | none =>
      match scanFor .bare cmd.toList with
      | some t => some (String.mk (trimChars t))
      | none => none

/-- Whether the flag marker `--csrf_token` occurs (case-insensitively)
anywhere in the command line. -/
def hasFlagMarker : List Char → Bool
  | [] => false
  | c :: cs => (matchLit csrfLit (c :: cs)).isSome || hasFlagMarker cs

/-! ## Process selection (`findAntigravityProcess`, latest snapshot
lines 693-706).  The platform-specific process enumeration is an oracle;
the selection itself comes straight from the source:
`processes.find(p => p.cmd.includes(ANTIGRAVITY) || p.cmd.includes(CSRF_TOKEN))`. -/

def antigravityPred (p : ProcessInfo) : Bool :=
  strContains p.cmd PROCESS_IDENTIFIER_ANTIGRAVITY ||
    strContains p.cmd PROCESS_IDENTIFIER_CSRF_TOKEN

def processNotFoundMsg : String :=
  "Antigravity process not found. Make sure Antigravity is running."

def findAntigravityProcess (processes : List ProcessInfo) :
    Except String ProcessInfo :=
  match processes.find? antigravityPred with
  | some p => Except.ok p
  | none => Except.error processNotFoundMsg

/-! ## Port validation (`findValidPort`, `isNonRetriableError`, latest
snapshot lines 725-779)

A probing round issues one `checkPort` per candidate port concurrently
(`Promise.any`); the outcome of each probe is the oracle
`probe attempt port` (`none` = success, `some msg` = failure message).
In an all-fail round every probe settles before `Promise.any` rejects, so
the `errors` map then holds one entry per distinct port; we record entries
in list order (a deterministic schedule of the concurrent callbacks).
The embedding additionally counts the number of rounds executed, which is
the observable the round-termination claims are about. -/

/-- `NON_RETRIABLE_PATTERNS`: `unauthorized|forbidden|401|403` (i),
`invalid.*token|token.*invalid` (i), `certificate|ssl|tls` (i).
`noNlThen pat l` : `pat` occurs in `l` with no newline before it
(the regex `.` does not cross `\n`). -/
def noNlThen (pat : List Char) : List Char → Bool
  | [] => listStartsWith pat []
  | c :: cs =>
    listStartsWith pat (c :: cs) || (c != '\n' && noNlThen pat cs)

/-- `seqTest p1 p2 l` : the regex `p1.*p2` matches somewhere in `l`. -/
def seqTest (p1 p2 : List Char) : List Char → Bool
  | [] => false
  | c :: cs =>
    (listStartsWith p1 (c :: cs) &&
      noNlThen p2 (List.drop p1.length (c :: cs))) || seqTest p1 p2 cs

def isNonRetriableError (message : String) : Bool :=
  let l := (toLowerStr message).toList
  listHasSub "unauthorized".toList l || listHasSub "forbidden".toList l ||
    listHasSub "401".toList l || listHasSub "403".toList l ||
    seqTest "invalid".toList "token".toList l ||
    seqTest "token".toList "invalid".toList l ||
    listHasSub "certificate".toList l || listHasSub "ssl".toList l ||
    listHasSub "tls".toList l

/-- `errors.set(port, msg)` on an insertion-ordered map. -/
def setErr : List (Int × String) → Int → String → List (Int × String)
  | [], p, s => [(p, s)]
  | (q, t) :: rest, p, s =>
    if q = p then (q, s) :: rest else (q, t) :: setErr rest p s

/-- The `errors` map after a fully failed round. -/
def roundErrs (pr : Int → Option String) (ports : List Int) :
    List (Int × String) :=
  ports.foldl
    (fun m p => match pr p with | some s => setErr m p s | none => m) []

/-- One `Promise.any` round: the first port (in list order) whose probe
succeeds wins; if none succeeds, the recorded error map is returned. -/
def runRound (pr : Int → Option String) (ports : List Int) :
    Except (List (Int × String)) Int :=
  match ports.find? (fun p => (pr p).isNone) with
  | some p => Except.ok p
  | none => Except.error (roundErrs pr ports)

def noPortsMsg : String :=
  "No listening ports found for the Antigravity process"

/-- First-occurrence-preserving dedup of the error messages
(`new Set(errors.values())` insertion order). -/
def dedupMsgsAux : List String → List String → List String
  | seen, [] => seen.reverse
  | seen, s :: rest =>
    if seen.contains s then dedupMsgsAux seen rest
    else dedupMsgsAux (s :: seen) rest

def dedupMsgs (l : List String) : List String :=
  dedupMsgsAux [] l

/-- The terminal error message of `findValidPort`. -/
def portFailureMsg (ports : List Int) (errs : List (Int × String)) : String :=
  let uniq := dedupMsgs (errs.map Prod.snd)
  let n := toString ports.length
  match uniq with
  | [onlyMsg] => "All " ++ n ++ " ports failed: " ++ onlyMsg
  | _ =>
    let summary := String.intercalate "; "
      ((errs.take 5).map (fun e => toString e.1 ++ ": " ++ e.2))
    "All port checks failed. [" ++ summary ++ "]"

/-- `errors.size === ports.length && [...errors.values()].every(isNonRetriableError)`. -/
def allNonRetriable (ports : List Int) (errs : List (Int × String)) : Bool :=
  errs.length == ports.length && errs.all (fun e => isNonRetriableError e.2)

/-- The retry loop of `findValidPort`: `fuel` is the number of attempts
still allowed, `attempt` the index of the current round.  Returns the
result together with the number of rounds actually executed. -/
def fvpLoop (probe : Nat → Int → Option String) (ports : List Int) :
    Nat → Nat → Except String Int × Nat
  | _, 0 => (Except.error (portFailureMsg ports []), 0)
  | attempt, fuel + 1 =>
    match runRound (probe attempt) ports with
    | Except.ok p => (Except.ok p, 1)
    | Except.error errs =>
      if allNonRetriable ports errs then
        (Except.error (portFailureMsg ports errs), 1)
      else if fuel = 0 then
        (Except.error (portFailureMsg ports errs), 1)
      else
        let r := fvpLoop probe ports (attempt + 1) fuel
        (r.1, r.2 + 1)

def findValidPort (probe : Nat → Int → Option String) (ports : List Int) :
    Except String Int × Nat :=
  if ports.isEmpty then (Except.error noPortsMsg, 0)
  else fvpLoop probe ports 0 MAX_PORT_VALIDATION_ATTEMPTS

/-! ## Platform port query (`src/platform.ts` lines 60-85 and 172-271)

`executeCommand` is I/O; it is modelled by the oracle
`exec : String → List String → Except String String` mapping a command
name and argument list to either its stdout or its error message.  The
output parsers are translated from the per-tool regex grammars. -/

def listenLit : List Char := "(LISTEN)".toList

/-- All matches of the global regex `:(\d+)\s+\(LISTEN\)` (lsof output). -/
def lsofScan : List Char → List Int
  | [] => []
  | c :: cs =>
    let hit : Option Int :=
      if c = ':' then
        let d := splitRun Char.isDigit cs
        if d.1.isEmpty then none
        else
          let w := splitRun isJsSpace d.2
          if w.1.isEmpty then none
          else if listStartsWith listenLit w.2 then
            some (digitsVal d.1 : Int)
          else none
      else none
    match hit with
    | some v => v :: lsofScan cs
    | none => lsofScan cs

def parseUnixLsofOutput (stdout : String) : List Int :=
  (lsofScan stdout.toList).filter validatePort

/-- First match of `:(\d+)\s` in a line (the port extraction shared by the
ss and netstat parsers). -/
def portColonScan : List Char → Option Int
  | [] => none
  | c :: cs =>
    let hit : Option Int :=
      if c = ':' then
        let d := splitRun Char.isDigit cs
        if d.1.isEmpty then none
        else
          match d.2 with
          | x :: _ => if isJsSpace x then some (digitsVal d.1 : Int) else none
          | [] => none
      else none
    match hit with
    | some v => some v
    | none => portColonScan cs

/-- Test of `` pid=<pid>\b `` against a line (ss output). -/
def pidEqScan (pat : List Char) : List Char → Bool
  | [] => false
  | c :: cs =>
    (listStartsWith pat (c :: cs) &&
      (match List.drop pat.length (c :: cs) with
       | [] => true
       | d :: _ => !isWordCh d)) || pidEqScan pat cs

def parseUnixSsOutput (stdout : String) (pid : Int) : List Int :=
  let pat := ("pid=" ++ toString pid).toList
  (splitNl stdout.toList).filterMap (fun line =>
    if pidEqScan pat line then
      (portColonScan line).bind (fun v =>
        if validatePort v then some v else none)
    else none)

/-- Test of `` \b<pid>/ `` against a line (netstat output); `prev` is the
character preceding the scan position, used for the word boundary. -/
def pidSlashScan (pat : List Char) : Option Char → List Char → Bool
  | _, [] => false
  | prev, c :: cs =>
    ((match prev with | none => true | some p => !isWordCh p) &&
      listStartsWith pat (c :: cs)) || pidSlashScan pat (some c) cs

def parseUnixNetstatOutput (stdout : String) (pid : Int) : List Int :=
  let pat := (toString pid ++ "/").toList
  (splitNl stdout.toList).filterMap (fun line =>
    if pidSlashScan pat none line then
      (portColonScan line).bind (fun v =>
        if validatePort v then some v else none)
    else none)

/-- Nonempty maximal runs of non-whitespace (JS `trim` + `split(/\s+/)`). -/
def splitWs : List Char → List (List Char)
  | [] => []
  | c :: cs =>
    if isJsSpace c then splitWs cs
    else
      (c :: cs.takeWhile (fun d => !isJsSpace d)) ::
        splitWs (cs.dropWhile (fun d => !isJsSpace d))
  termination_by l => l.length
  decreasing_by
    · simp only [List.length_cons]; omega
    · have h : (cs.dropWhile (fun d => !isJsSpace d)).length ≤ cs.length := by
        induction cs with
        | nil => simp [List.dropWhile]
        | cons x xs ih =>
          simp only [List.dropWhile]
          split
          · exact ih.trans (by simp)
          · simp
      simp only [List.length_cons]; omega

/-- One line of Windows `netstat -ano -p tcp` output. -/
def winNetstatLine (pid : Int) (line : List Char) : Option Int :=
  let parts := splitWs line
  if parts.length < 5 then none
  else
    match parts.getLast? with
    | none => none
    | some lastPart =>
      if parseIntJS lastPart = some pid then
        match parts[1]? with
        | none => none
        | some localAddress =>
          match (localAddress.reverse.takeWhile (fun c => c != ':')) with
          | afterRev =>
            if afterRev.length = localAddress.length then none
            else
              (parseIntJS afterRev.reverse).bind (fun v =>
                if validatePort v then some v else none)
      else none

def parseNetstatOutput (stdout : String) (pid : Int) : List Int :=
  (splitCrLf stdout.toList).filterMap (winNetstatLine pid)

/-- Windows PowerShell branch: one port per line. -/
def parsePowershellPorts (stdout : String) : List Int :=
  (splitCrLf (trimChars stdout.toList)).filterMap (fun line =>
    (parseIntJS (trimChars line)).bind (fun v =>
      if validatePort v then some v else none))

def lsofArgs (pid : Int) : List String :=
  ["-iTCP", "-sTCP:LISTEN", "-n", "-P", "-p", toString pid]

/-- `UnixPlatform.getPorts`: on darwin only `lsof` is tried; elsewhere the
cascade `ss`, `lsof`, `netstat` with error aggregation. -/
def unixGetPorts (platform : String)
    (exec : String → List String → Except String String) (pid : Int) :
    Except String (List Int) :=
  if platform = "darwin" then
    match exec "lsof" (lsofArgs pid) with
    | Except.ok stdout => Except.ok (parseUnixLsofOutput stdout)
    | Except.error e =>
      Except.error ("Failed to query Unix ports calling lsof: " ++ e)
  else
    match exec "ss" ["-tlnp"] with
    | Except.ok stdout => Except.ok (parseUnixSsOutput stdout pid)
    | Except.error e1 =>
      match exec "lsof" (lsofArgs pid) with
      | Except.ok stdout => Except.ok (parseUnixLsofOutput stdout)
      | Except.error e2 =>
        match exec "netstat" ["-tlnp"] with
        | Except.ok stdout => Except.ok (parseUnixNetstatOutput stdout pid)
        | Except.error e3 =>
          Except.error ("Failed to query Unix ports. Attempts: " ++
            String.intercalate "; "
              ["ss: " ++ e1, "lsof: " ++ e2, "netstat: " ++ e3])

def winPsPortArgs (pid : Int) : List String :=
  ["-NoProfile", "-Command",
    "Get-NetTCPConnection -OwningProcess " ++ toString pid ++
      " -State Listen -ErrorAction SilentlyContinue | Select-Object -ExpandProperty LocalPort"]

/-- `WindowsPlatform.getPorts`: PowerShell first, then `netstat`; only the
second failure is reported. -/
def windowsGetPorts (exec : String → List String → Except String String)
    (pid : Int) : Except String (List Int) :=
  match exec "powershell" (winPsPortArgs pid) with
  | Except.ok stdout => Except.ok (parsePowershellPorts stdout)
  | Except.error _ =>
    match exec "netstat" ["-ano", "-p", "tcp"] with
    | Except.ok stdout => Except.ok (parseNetstatOutput stdout pid)
    | Except.error e =>
      Except.error ("Failed to query Windows ports: " ++ e)

/-- First-occurrence-preserving dedup (`Array.from(new Set(rawPorts))`). -/
def dedupPortsAux : List Int → List Int → List Int
  | seen, [] => seen.reverse
  | seen, p :: rest =>
    if seen.contains p then dedupPortsAux seen rest
    else dedupPortsAux (p :: seen) rest

def dedupPorts (l : List Int) : List Int :=
  dedupPortsAux [] l

/-- `findListeningPorts` (latest snapshot lines 708-717): pid validation,
platform strategy dispatch, dedup. -/
def findListeningPorts (platform : String)
    (exec : String → List String → Except String String) (pid : Int) :
    Except String (List Int) :=
  if !validatePid pid then
    Except.error ("Invalid process ID: " ++ toString pid)
  else
    match
      (if platform = "win32" then windowsGetPorts exec pid
       else unixGetPorts platform exec pid) with
    | Except.ok rawPorts => Except.ok (dedupPorts rawPorts)
    | Except.error e => Except.error e

structure CascadeModelConfigData where
  clientModelConfigs : List ModelConfig

structure PlanInfo where
  planName : Option String

structure PlanStatus where
  planInfo : Option PlanInfo

structure UserTier where
  name : String
  id : String

structure UserStatus where
  cascadeModelConfigData : Option CascadeModelConfigData
  planStatus : Option PlanStatus
  userTier : Option UserTier

structure ServerUserStatusResponse where
  userStatus : Option UserStatus

/-- `fetchStats` after the transport call: the aggregation applied to the
models of an already-received server response. -/
def fetchStats (pd : String → Option Int) (response : ServerUserStatusResponse) :
    UsageStatistics :=
  let models :=
    (response.userStatus.bind UserStatus.cascadeModelConfigData).elim []
      CascadeModelConfigData.clientModelConfigs
  { groups := fetchStatsGroups pd models
    plan := (response.userStatus.bind UserStatus.planStatus).bind
      (fun ps => ps.planInfo.bind PlanInfo.planName)
    planName := (response.userStatus.bind UserStatus.userTier).map UserTier.name }

/-! ## Polling orchestrator (`refresh` / `executeRefresh` and
`startAutoRefresh` / `runLoop`, latest snapshot of `src/extension.ts`,
lines 496-531 and 682-785)

The discovery and transport steps are asynchronous I/O; each is an oracle
field of `RefreshEnv`.  `fetchStats` is called up to twice in one refresh
(once on the cached connection, once after rediscovery), and the outside
world may change in between, so the two calls have separate oracles.
The embedding follows the synchronous success/failure control flow of
`executeRefresh` (the extension stays active throughout; status-bar
rendering, logging and the minimum-display delay are view-layer effects
with no bearing on the modelled state). -/

structure ExtState where
  cachedConnection : Option CachedConnection
  lastStatsData : Option UsageStatistics
  lastRefreshSucceeded : Bool
  consecutiveFailures : Nat
  deriving DecidableEq, Repr

structure RefreshEnv where
  now : Int
  useMockData : Bool
  mockStats : UsageStatistics
  findProcessR : Except String ProcessInfo
  findPortsR : Int → Except String (List Int)
  findValidPortR : List Int → String → Except String Int
  fetchStatsCachedR : Int → String → Except String UsageStatistics
  fetchStatsFreshR : Int → String → Except String UsageStatistics

/-- `isCacheValid`: cache present and younger than `CACHE_TTL_MS`. -/
def isCacheValid (now : Int) : Option CachedConnection → Bool
  | none => false
  | some cache => now - cache.timestamp < CACHE_TTL_MS

/-- `applyStatsUpdate`: record data and mark the refresh successful. -/
def applyStatsUpdate (s : ExtState) (statsData : UsageStatistics) : ExtState :=
  { s with lastStatsData := some statsData, lastRefreshSucceeded := true }

/-- The `catch` branch of `executeRefresh`. -/
def refreshFailed (s : ExtState) : ExtState :=
  { s with lastRefreshSucceeded := false }

/-- The full rediscovery path: process query → token extraction → port
query (fail fast if empty) → port validation → cache population → final
stats fetch.  Note the cache is populated before the final fetch. -/
def fullRediscovery (env : RefreshEnv) (s : ExtState) : ExtState :=
  match env.findProcessR with
  | Except.error _ => refreshFailed s
  | Except.ok processInfo =>
    match extractCsrfToken processInfo.cmd with
    | none => refreshFailed s
    | some csrfToken =>
      match env.findPortsR processInfo.pid with
      | Except.error _ => refreshFailed s
      | Except.ok ports =>
        if ports.isEmpty then refreshFailed s
        else
          match env.findValidPortR ports csrfToken with
          | Except.error _ => refreshFailed s
          | Except.ok port =>
            let s1 := { s with
              cachedConnection := some ⟨port, csrfToken, env.now⟩ }
            match env.fetchStatsFreshR port csrfToken with
            | Except.ok statsData => applyStatsUpdate s1 statsData
            | Except.error _ => refreshFailed s1

/-- `executeRefresh`: mock short-circuit, then cache-first attempt with
invalidation-and-fallthrough on failure, then full rediscovery. -/
def executeRefresh (env : RefreshEnv) (s : ExtState) : ExtState :=
  if env.useMockData then applyStatsUpdate s env.mockStats
  else
    match s.cachedConnection with
    | some connection =>
      if isCacheValid env.now (some connection) then
        match env.fetchStatsCachedR connection.port connection.csrfToken with
        | Except.ok statsData => applyStatsUpdate s statsData
        | Except.error _ =>
          fullRediscovery env { s with cachedConnection := none }
      else fullRediscovery env s
    | none => fullRediscovery env s

/-- The scheduling step at the end of `runLoop`: reads
`lastRefreshSucceeded`, updates `consecutiveFailures` and computes the
next delay (exponential backoff capped at the maximum on failure).
Returns `(new consecutiveFailures, delayMs)`. -/
def scheduleNext (cfgRefreshInterval : Nat) (consecutiveFailures : Nat)
    (lastRefreshSucceeded : Bool) : Nat × Nat :=
  let intervalSeconds := max 10 cfgRefreshInterval
  if lastRefreshSucceeded then (0, intervalSeconds * MS_PER_SECOND)
  else
    let n := consecutiveFailures + 1
    (n, min (FAILED_REFRESH_DELAY_MS * 2 ^ (n - 1)) MAX_FAILED_REFRESH_DELAY_MS)

/-- The failure counter after `n` consecutive failed iterations of
`runLoop` starting from a reset counter. -/
def failStreakCounter (cfgRefreshInterval : Nat) : Nat → Nat
  | 0 => 0
  | n + 1 =>
    (scheduleNext cfgRefreshInterval (failStreakCounter cfgRefreshInterval n)
      false).1

/-! ## Characterization definitions

Derived notions used only to state and prove properties of the embedded
code (not themselves translations of source functions). -/

/-- Minimum of two optional timestamps where `none` is the neutral
element; the accumulator form of the reset-time fold. -/
def optMinR : Option Int → Option Int → Option Int
  | o, none => o
  | none, some t => some t
  | some r, some t => some (min t r)

/-- Folding a list of models into an existing group: running minimum of
the quotas and of the parseable reset times. -/
def groupOfModels (pd : String → Option Int) (g : QuotaGroup)
    (l : List ModelConfig) : QuotaGroup :=
  ⟨l.foldl (fun a m => min (modelQuota m) a) g.quota,
    l.foldl (fun o m => optMinR o (resetOf pd m)) g.resetTime⟩

/-- The models of `ms` that `determineCategory` maps to `cat`. -/
def modelsInCat (cat : String) (ms : List ModelConfig) : List ModelConfig :=
  ms.filter (fun m => determineCategory m.label == cat)

/-- A raw entry whose remaining fraction is replaced by the finite value
`0` (used to state that non-finite and absent fractions act as `0`). -/
def withZeroFraction (m : ModelConfig) : ModelConfig :=
  { m with
    quotaInfo := some
      ⟨some (JSNum.finite 0), m.quotaInfo.bind QuotaInfo.resetTime⟩ }

/-- No character of the list compares case-insensitively equal to a
hyphen (no occurrence of the regex literal can start in such a zone). -/
def dashFree (l : List Char) : Bool :=
  l.all (fun c => !ciEq '-' c)

/-- No two adjacent characters are both hyphens (prevents a spurious
occurrence of the flag literal inside a hyphenated token value). -/
def noDDash : List Char → Bool
  | [] => true
  | [_] => true
  | a :: b :: r => !(ciEq '-' a && ciEq '-' b) && noDDash (b :: r)

/-- A well-formed token value: nonempty, made of word characters and
hyphens, with no two adjacent hyphens. -/
def goodToken (t : List Char) : Bool :=
  !t.isEmpty && t.all isWordHyphen && noDDash t

/-- The double-quoted flag occurrence `--csrf_token="t"`. -/
def dqCore (t : List Char) : List Char :=
  csrfLit ++ '=' :: dquoteC :: (t ++ [dquoteC])

/-- The single-quoted flag occurrence `--csrf_token='t'`. -/
def sqCore (t : List Char) : List Char :=
  csrfLit ++ '=' :: squoteC :: (t ++ [squoteC])

/-- The bare flag occurrence `--csrf_token=t`. -/
def bareCore (t : List Char) : List Char :=
  csrfLit ++ '=' :: t

/-- A concrete refresh environment in which discovery succeeds end to end
but the final stats fetch fails. -/
def c3Env : RefreshEnv :=
  { now := 1000
    useMockData := false
    mockStats := ⟨[], none, none⟩
    findProcessR := Except.ok ⟨42, "language_server --csrf_token=abc"⟩
    findPortsR := fun _ => Except.ok [4240]
    findValidPortR := fun _ _ => Except.ok 4240
    fetchStatsCachedR := fun _ _ => Except.error "unused"
    fetchStatsFreshR := fun _ _ => Except.error "HTTP request failed with status 500" }

/-- The extension state before the refresh of the C3 scenario. -/
def c3State : ExtState :=
  ⟨none, none, true, 0⟩

/-- A command oracle in which `lsof` is broken while `ss` and `netstat`
work and report one listening socket for pid 5. -/
def c8Exec : String → List String → Except String String :=
  fun cmd _ =>
    if cmd = "lsof" then Except.error "lsof unavailable"
    else Except.ok "LISTEN 0 128 127.0.0.1:4240 0.0.0.0:* users:((x,pid=5,fd=23))"

/-! # Lemmas about the quota aggregation -/

theorem lookupGroup_updateGroup_self (f : QuotaGroup → QuotaGroup)
    (gs : List (String × QuotaGroup)) (cat : String) :
    lookupGroup (updateGroup f gs cat) cat =
      some (f ((lookupGroup gs cat).getD ⟨1, none⟩)) := by
  induction gs with
  | nil => simp [updateGroup, lookupGroup]
  | cons e rest ih =>
    obtain ⟨c, g⟩ := e
    by_cases hc : c = cat
    · subst hc
      simp [updateGroup, lookupGroup]
    · simp [updateGroup, lookupGroup, hc, ih]

theorem lookupGroup_updateGroup_ne (f : QuotaGroup → QuotaGroup)
    (gs : List (String × QuotaGroup)) (cat cat' : String) (h : cat' ≠ cat) :
    lookupGroup (updateGroup f gs cat) cat' = lookupGroup gs cat' := by
  induction gs with
  | nil => simp [updateGroup, lookupGroup, Ne.symm h]
  | cons e rest ih =>
    obtain ⟨c, g⟩ := e
    by_cases hc : c = cat
    · subst hc
      simp [updateGroup, lookupGroup, Ne.symm h]
    · simp [updateGroup, lookupGroup, hc, ih]

theorem applyModel_eq (pd : String → Option Int) (m : ModelConfig)
    (g : QuotaGroup) :
    applyModel pd m g =
      ⟨min (modelQuota m) g.quota, optMinR g.resetTime (resetOf pd m)⟩ := by
  obtain ⟨gq, gr⟩ := g
  rcases hr : resetOf pd m with _ | t <;>
    rcases lt_or_ge (modelQuota m) gq with hq | hq
  · simp [applyModel, hr, optMinR, if_pos hq, min_eq_left hq.le]
  · simp [applyModel, hr, optMinR, if_neg (not_lt.mpr hq), min_eq_right hq]
  all_goals rcases gr with _ | r
  · simp [applyModel, hr, optMinR, if_pos hq, min_eq_left hq.le]
  · rcases lt_trichotomy t r with h | h | h
    · simp [applyModel, hr, optMinR, if_pos hq, min_eq_left hq.le, if_pos h,
        min_eq_left h.le]
    · subst h
      simp [applyModel, hr, optMinR, if_pos hq, min_eq_left hq.le,
        if_neg (lt_irrefl t), min_self]
    · simp [applyModel, hr, optMinR, if_pos hq, min_eq_left hq.le,
        if_neg (not_lt.mpr h.le), min_eq_right h.le]
  · simp [applyModel, hr, optMinR, if_neg (not_lt.mpr hq), min_eq_right hq]
  · rcases lt_trichotomy t r with h | h | h
    · simp [applyModel, hr, optMinR, if_neg (not_lt.mpr hq), min_eq_right hq,
        if_pos h, min_eq_left h.le]
    · subst h
      simp [applyModel, hr, optMinR, if_neg (not_lt.mpr hq), min_eq_right hq,
        if_neg (lt_irrefl t), min_self]
    · simp [applyModel, hr, optMinR, if_neg (not_lt.mpr hq), min_eq_right hq,
        if_neg (not_lt.mpr h.le), min_eq_right h.le]

theorem groupOfModels_nil (pd : String → Option Int) (g : QuotaGroup) :
    groupOfModels pd g [] = g := rfl

theorem groupOfModels_cons (pd : String → Option Int) (g : QuotaGroup)
    (m : ModelConfig) (l : List ModelConfig) :
    groupOfModels pd g (m :: l) = groupOfModels pd (applyModel pd m g) l := by
  rw [applyModel_eq]
  rfl

theorem modelsInCat_cons_pos (cat : String) (m : ModelConfig)
    (ms : List ModelConfig) (h : determineCategory m.label = cat) :
    modelsInCat cat (m :: ms) = m :: modelsInCat cat ms := by
  have hb : (determineCategory m.label == cat) = true := by simpa using h
  simp [modelsInCat, List.filter, hb]

theorem modelsInCat_cons_neg (cat : String) (m : ModelConfig)
    (ms : List ModelConfig) (h : ¬determineCategory m.label = cat) :
    modelsInCat cat (m :: ms) = modelsInCat cat ms := by
  have hb : (determineCategory m.label == cat) = false := by simpa using h
  simp [modelsInCat, List.filter, hb]

/-- The central characterization of the `fetchStats` fold: the group at
`cat` after folding `ms` on top of `gs` is the fold of the models of that
category on top of the previous group (default `⟨1, none⟩`). -/
theorem lookupGroup_foldl (pd : String → Option Int) (ms : List ModelConfig) :
    ∀ (gs : List (String × QuotaGroup)) (cat : String),
      lookupGroup (ms.foldl (stepModel pd) gs) cat =
        match lookupGroup gs cat with
        | some g => some (groupOfModels pd g (modelsInCat cat ms))
        | none =>
          if (modelsInCat cat ms).isEmpty then none
          else some (groupOfModels pd ⟨1, none⟩ (modelsInCat cat ms)) := by
  induction ms with
  | nil =>
    intro gs cat
    cases h : lookupGroup gs cat <;> simp [modelsInCat, groupOfModels_nil, h]
  | cons m rest ih =>
    intro gs cat
    have step : (m :: rest).foldl (stepModel pd) gs =
        rest.foldl (stepModel pd) (stepModel pd gs m) := rfl
    rw [step, ih]
    by_cases hcat : determineCategory m.label = cat
    · have h1 : lookupGroup (stepModel pd gs m) cat =
          some (applyModel pd m ((lookupGroup gs cat).getD ⟨1, none⟩)) := by
        unfold stepModel
        rw [hcat]
        exact lookupGroup_updateGroup_self _ _ _
      rw [h1, modelsInCat_cons_pos cat m rest hcat]
      cases h2 : lookupGroup gs cat <;>
        simp [h2, groupOfModels_cons]
    · have h1 : lookupGroup (stepModel pd gs m) cat = lookupGroup gs cat := by
        unfold stepModel
        exact lookupGroup_updateGroup_ne _ _ _ _ (fun hh => hcat hh.symm)
      rw [h1, modelsInCat_cons_neg cat m rest hcat]

theorem lookupGroup_fetchStatsGroups (pd : String → Option Int)
    (ms : List ModelConfig) (cat : String) :
    lookupGroup (fetchStatsGroups pd ms) cat =
      if (modelsInCat cat ms).isEmpty then none
      else some (groupOfModels pd ⟨1, none⟩ (modelsInCat cat ms)) := by
  have h := lookupGroup_foldl pd ms [] cat
  simpa [fetchStatsGroups, lookupGroup] using h

theorem foldl_min_le_init (l : List ModelConfig) :
    ∀ q0 : ℚ, l.foldl (fun a m => min (modelQuota m) a) q0 ≤ q0 := by
  induction l with
  | nil => simp
  | cons m rest ih =>
    intro q0
    exact le_trans (ih _) (min_le_right _ _)

theorem foldl_min_le_mem (l : List ModelConfig) :
    ∀ (q0 : ℚ) (m : ModelConfig), m ∈ l →
      l.foldl (fun a m => min (modelQuota m) a) q0 ≤ modelQuota m := by
  induction l with
  | nil =>
    intro q0 m h
    exact absurd h (List.not_mem_nil m)
  | cons x rest ih =>
    intro q0 m h
    rcases List.mem_cons.mp h with rfl | hmem
    · exact le_trans (foldl_min_le_init rest _) (min_le_left _ _)
    · exact ih _ m hmem

theorem foldl_min_attained (l : List ModelConfig) :
    ∀ q0 : ℚ, l.foldl (fun a m => min (modelQuota m) a) q0 = q0 ∨
      ∃ m ∈ l, l.foldl (fun a m => min (modelQuota m) a) q0 = modelQuota m := by
  induction l with
  | nil => intro q0; exact Or.inl rfl
  | cons x rest ih =>
    intro q0
    have hstep : (x :: rest).foldl (fun a m => min (modelQuota m) a) q0 =
        rest.foldl (fun a m => min (modelQuota m) a) (min (modelQuota x) q0) := rfl
    rcases ih (min (modelQuota x) q0) with h | ⟨m, hm, hfold⟩
    · rcases le_total (modelQuota x) q0 with hx | hx
      · refine Or.inr ⟨x, List.mem_cons_self x rest, ?_⟩
        rw [hstep, h, min_eq_left hx]
      · left
        rw [hstep, h, min_eq_right hx]
    · exact Or.inr ⟨m, List.mem_cons_of_mem x hm, by rw [hstep, hfold]⟩

theorem foldl_optMinR_mono_some (pd : String → Option Int)
    (l : List ModelConfig) :
    ∀ r0 : Int,
      ∃ r ≤ r0, l.foldl (fun o m => optMinR o (resetOf pd m)) (some r0) = some r := by
  induction l with
  | nil =>
    intro r0
    exact ⟨r0, le_refl r0, rfl⟩
  | cons x rest ih =>
    intro r0
    have hstep : (x :: rest).foldl (fun o m => optMinR o (resetOf pd m)) (some r0) =
        rest.foldl (fun o m => optMinR o (resetOf pd m))
          (optMinR (some r0) (resetOf pd x)) := rfl
    rcases hx : resetOf pd x with _ | t
    · rcases ih r0 with ⟨r, hr, hfold⟩
      exact ⟨r, hr, by rw [hstep, hx]; exact hfold⟩
    · rcases ih (min t r0) with ⟨r, hr, hfold⟩
      refine ⟨r, le_trans hr (min_le_right t r0), ?_⟩
      rw [hstep, hx]
      exact hfold

theorem foldl_optMinR_lb (pd : String → Option Int) (l : List ModelConfig) :
    ∀ (o : Option Int) (m : ModelConfig) (t : Int), m ∈ l →
      resetOf pd m = some t →
      ∃ r, l.foldl (fun o m => optMinR o (resetOf pd m)) o = some r ∧ r ≤ t := by
  induction l with
  | nil =>
    intro o m t h
    exact absurd h (List.not_mem_nil m)
  | cons x rest ih =>
    intro o m t hmem hreset
    have hstep : (x :: rest).foldl (fun o m => optMinR o (resetOf pd m)) o =
        rest.foldl (fun o m => optMinR o (resetOf pd m))
          (optMinR o (resetOf pd x)) := rfl
    rcases List.mem_cons.mp hmem with rfl | hmem2
    · rw [hstep, hreset]
      rcases o with _ | r0
      · rcases foldl_optMinR_mono_some pd rest t with ⟨r, hr, hfold⟩
        exact ⟨r, by simpa [optMinR] using hfold, hr⟩
      · rcases foldl_optMinR_mono_some pd rest (min t r0) with ⟨r, hr, hfold⟩
        exact ⟨r, by simpa [optMinR] using hfold,
          le_trans hr (min_le_left t r0)⟩
    · rw [hstep]
      exact ih _ m t hmem2 hreset

theorem foldl_optMinR_attain (pd : String → Option Int) (l : List ModelConfig) :
    ∀ (o : Option Int) (r : Int),
      l.foldl (fun o m => optMinR o (resetOf pd m)) o = some r →
      o = some r ∨ ∃ m ∈ l, resetOf pd m = some r := by
  induction l with
  | nil =>
    intro o r h
    exact Or.inl h
  | cons x rest ih =>
    intro o r h
    have hstep : (x :: rest).foldl (fun o m => optMinR o (resetOf pd m)) o =
        rest.foldl (fun o m => optMinR o (resetOf pd m))
          (optMinR o (resetOf pd x)) := rfl
    rw [hstep] at h
    rcases ih _ r h with h2 | ⟨m, hm, hres⟩
    · rcases hx : resetOf pd x with _ | t
      · rw [hx] at h2
        rcases o with _ | r0
        · exact absurd h2 (by simp [optMinR])
        · exact Or.inl (by simpa [optMinR] using h2)
      · rw [hx] at h2
        rcases o with _ | r0
        · refine Or.inr ⟨x, List.mem_cons_self x rest, ?_⟩
          rw [hx]
          simpa [optMinR] using h2
        · have h3 : min t r0 = r := by simpa [optMinR] using h2
          rcases min_cases t r0 with ⟨he, _⟩ | ⟨he, _⟩
          · refine Or.inr ⟨x, List.mem_cons_self x rest, ?_⟩
            rw [hx]
            exact congrArg some (he.symm.trans h3)
          · exact Or.inl (congrArg some (he.symm.trans h3))
    · exact Or.inr ⟨m, List.mem_cons_of_mem x hm, hres⟩

theorem optMinR_right_comm (z a b : Option Int) :
    optMinR (optMinR z a) b = optMinR (optMinR z b) a := by
  rcases a with _ | ta <;> rcases b with _ | tb <;> rcases z with _ | tz <;>
    simp [optMinR, min_comm, min_left_comm]

theorem mem_modelsInCat (cat : String) (ms : List ModelConfig)
    (m : ModelConfig) :
    m ∈ modelsInCat cat ms ↔ m ∈ ms ∧ determineCategory m.label = cat := by
  simp [modelsInCat]

/-! # Claim C1 -/

/-- Claim C1 counterexample.  The claim says a raw entry whose quota
fraction is present but not a finite number is skipped and contributes
nothing to any category.  In the latest `fetchStats` such an entry is
instead coerced to quota `0`: aggregating the single non-finite entry
below produces a `Claude/GPT` group with quota `0` rather than an empty
group record. -/
theorem c1_counterexample :
    fetchStatsGroups (fun _ => none)
        [⟨"x", some ⟨some JSNum.nonfinite, none⟩⟩] =
      [(CATEGORY_CLAUDE_GPT, ⟨0, none⟩)] ∧
    lookupGroup (fetchStatsGroups (fun _ => none)
        [⟨"x", some ⟨some JSNum.nonfinite, none⟩⟩]) CATEGORY_CLAUDE_GPT ≠
      none := by
  exact ⟨by decide, by decide⟩

/-- Claim C1, amended: in the latest `fetchStats` an entry whose quota
fraction is present but not a finite number is not skipped; it is treated
exactly like an entry with fraction `0` (as is an entry with an absent
fraction), contributing a quota of `0` to its category. -/
theorem c1_nonfinite_acts_as_zero (pd : String → Option Int)
    (pre post : List ModelConfig) (m : ModelConfig)
    (hm : m.quotaInfo.bind QuotaInfo.remainingFraction = some JSNum.nonfinite ∨
      m.quotaInfo.bind QuotaInfo.remainingFraction = none) :
    modelQuota m = 0 ∧
    fetchStatsGroups pd (pre ++ m :: post) =
      fetchStatsGroups pd (pre ++ withZeroFraction m :: post) := by
  have hq : modelQuota m = 0 := by
    rcases hm with h | h <;> simp [modelQuota, h]
  refine ⟨hq, ?_⟩
  have hq2 : modelQuota (withZeroFraction m) = 0 := by
    simp [modelQuota, withZeroFraction]
  have hro : resetOf pd (withZeroFraction m) = resetOf pd m := by
    simp [resetOf, withZeroFraction]
  have hsm : ∀ gs, stepModel pd gs m = stepModel pd gs (withZeroFraction m) := by
    intro gs
    unfold stepModel
    have hl : (withZeroFraction m).label = m.label := rfl
    rw [hl]
    have hfn : applyModel pd m = applyModel pd (withZeroFraction m) := by
      funext g
      rw [applyModel_eq, applyModel_eq, hq, hq2, hro]
    rw [hfn]
  unfold fetchStatsGroups
  rw [List.foldl_append, List.foldl_append]
  have hcons : ∀ gs, (m :: post).foldl (stepModel pd) gs =
      (withZeroFraction m :: post).foldl (stepModel pd) gs := by
    intro gs
    show post.foldl (stepModel pd) (stepModel pd gs m) =
      post.foldl (stepModel pd) (stepModel pd gs (withZeroFraction m))
    rw [hsm]
  exact hcons _

/-- Claim C1 witness. -/
theorem c1_witness :
    modelQuota ⟨"x", some ⟨some JSNum.nonfinite, none⟩⟩ = 0 ∧
    fetchStatsGroups (fun _ => none)
        ([] ++ ⟨"x", some ⟨some JSNum.nonfinite, none⟩⟩ :: []) =
      fetchStatsGroups (fun _ => none)
        ([] ++ withZeroFraction ⟨"x", some ⟨some JSNum.nonfinite, none⟩⟩ :: []) :=
  c1_nonfinite_acts_as_zero (fun _ => none) [] []
    ⟨"x", some ⟨some JSNum.nonfinite, none⟩⟩ (Or.inl rfl)

/-! # Claim C5 -/

/-- Claim C5 counterexample.  The claim says the category quota equals the
minimum of the coerced remaining fractions of the models folded into it.
A single model with fraction `3/2` gives category quota `1` (the fold
starts at `1` and only ever lowers it), not the minimum `3/2` of the
fractions. -/
theorem c5_counterexample :
    lookupGroup (fetchStatsGroups (fun _ => none)
        [⟨"x", some ⟨some (JSNum.finite (mkRat 3 2)), none⟩⟩]) CATEGORY_CLAUDE_GPT =
      some ⟨1, none⟩ ∧
    modelQuota ⟨"x", some ⟨some (JSNum.finite (mkRat 3 2)), none⟩⟩ = mkRat 3 2 ∧
    mkRat 3 2 ≠ (1 : ℚ) := by
  exact ⟨by decide, by decide, by norm_num⟩

/-- Claim C5, amended: the category quota is the minimum of `1` together
with the coerced fractions of the models folded into the category (so a
fraction above `1` is clamped); the reset time is the minimum of the
parseable reset times of those models, absent reset times being ignored.
Stated as: the quota is a lower bound of the fractions and is either `1`
or attained by some model, and the reset time is a lower bound of the
parseable reset times and attained by some model; the claim's own example
(Pro fractions `0.8` and `0.3` give quota `0.3`) follows. -/
theorem c5_category_minimum :
    (∀ (pd : String → Option Int) (ms : List ModelConfig) (cat : String)
      (g : QuotaGroup),
      lookupGroup (fetchStatsGroups pd ms) cat = some g →
        (∀ m ∈ ms, determineCategory m.label = cat → g.quota ≤ modelQuota m) ∧
        (g.quota = 1 ∨
          ∃ m ∈ ms, determineCategory m.label = cat ∧ g.quota = modelQuota m) ∧
        (∀ m ∈ ms, determineCategory m.label = cat →
          ∀ t, resetOf pd m = some t → ∃ r, g.resetTime = some r ∧ r ≤ t) ∧
        (∀ r, g.resetTime = some r →
          ∃ m ∈ ms, determineCategory m.label = cat ∧ resetOf pd m = some r)) ∧
    lookupGroup (fetchStatsGroups (fun _ => none)
        [⟨"Gemini 3 Pro (High)", some ⟨some (JSNum.finite (mkRat 8 10)), none⟩⟩,
         ⟨"Gemini 3 Pro (Low)", some ⟨some (JSNum.finite (mkRat 3 10)), none⟩⟩])
      CATEGORY_GEMINI_PRO = some ⟨mkRat 3 10, none⟩ := by
  constructor
  · intro pd ms cat g hg
    rw [lookupGroup_fetchStatsGroups] at hg
    by_cases he : (modelsInCat cat ms).isEmpty
    · rw [if_pos he] at hg
      exact absurd hg (by simp)
    · rw [if_neg he] at hg
      have hgr : groupOfModels pd ⟨1, none⟩ (modelsInCat cat ms) = g :=
        Option.some.inj hg
      subst hgr
      refine ⟨?_, ?_, ?_, ?_⟩
      · intro m hm hcat
        exact foldl_min_le_mem _ _ _ ((mem_modelsInCat _ _ _).mpr ⟨hm, hcat⟩)
      · rcases foldl_min_attained (modelsInCat cat ms) 1 with h | ⟨m, hm, hf⟩
        · exact Or.inl h
        · obtain ⟨hmem, hcat⟩ := (mem_modelsInCat _ _ _).mp hm
          exact Or.inr ⟨m, hmem, hcat, hf⟩
      · intro m hm hcat t ht
        exact foldl_optMinR_lb pd _ none m t
          ((mem_modelsInCat _ _ _).mpr ⟨hm, hcat⟩) ht
      · intro r hr
        rcases foldl_optMinR_attain pd _ none r hr with habs | ⟨m, hm, hres⟩
        · exact absurd habs (by simp)
        · obtain ⟨hmem, hcat⟩ := (mem_modelsInCat _ _ _).mp hm
          exact ⟨m, hmem, hcat, hres⟩
  · decide

/-- Claim C5 witness. -/
theorem c5_witness :
    (∀ m ∈ [(⟨"Gemini 3 Pro (High)", some ⟨some (JSNum.finite (mkRat 8 10)), none⟩⟩ :
        ModelConfig),
       ⟨"Gemini 3 Pro (Low)", some ⟨some (JSNum.finite (mkRat 3 10)), none⟩⟩],
      determineCategory m.label = CATEGORY_GEMINI_PRO →
        (⟨mkRat 3 10, none⟩ : QuotaGroup).quota ≤ modelQuota m) ∧
    ((⟨mkRat 3 10, none⟩ : QuotaGroup).quota = 1 ∨
      ∃ m ∈ [(⟨"Gemini 3 Pro (High)", some ⟨some (JSNum.finite (mkRat 8 10)), none⟩⟩ :
          ModelConfig),
        ⟨"Gemini 3 Pro (Low)", some ⟨some (JSNum.finite (mkRat 3 10)), none⟩⟩],
        determineCategory m.label = CATEGORY_GEMINI_PRO ∧
          (⟨mkRat 3 10, none⟩ : QuotaGroup).quota = modelQuota m) ∧
    (∀ m ∈ [(⟨"Gemini 3 Pro (High)", some ⟨some (JSNum.finite (mkRat 8 10)), none⟩⟩ :
        ModelConfig),
       ⟨"Gemini 3 Pro (Low)", some ⟨some (JSNum.finite (mkRat 3 10)), none⟩⟩],
      determineCategory m.label = CATEGORY_GEMINI_PRO →
        ∀ t, resetOf (fun _ => none) m = some t →
          ∃ r, (⟨mkRat 3 10, none⟩ : QuotaGroup).resetTime = some r ∧ r ≤ t) ∧
    (∀ r, (⟨mkRat 3 10, none⟩ : QuotaGroup).resetTime = some r →
      ∃ m ∈ [(⟨"Gemini 3 Pro (High)", some ⟨some (JSNum.finite (mkRat 8 10)), none⟩⟩ :
          ModelConfig),
        ⟨"Gemini 3 Pro (Low)", some ⟨some (JSNum.finite (mkRat 3 10)), none⟩⟩],
        determineCategory m.label = CATEGORY_GEMINI_PRO ∧
          resetOf (fun _ => none) m = some r) :=
  c5_category_minimum.1 (fun _ => none)
    [⟨"Gemini 3 Pro (High)", some ⟨some (JSNum.finite (mkRat 8 10)), none⟩⟩,
     ⟨"Gemini 3 Pro (Low)", some ⟨some (JSNum.finite (mkRat 3 10)), none⟩⟩]
    CATEGORY_GEMINI_PRO ⟨mkRat 3 10, none⟩ (by decide)

/-! # Claim C6 -/

/-- Claim C6: the aggregation is order-independent — permuting the raw
model list yields the same category-to-(quota, resetTime) mapping — and
idempotent — aggregating the same list twice yields the same mapping
(the fold is a pure function of the list, so this is determinism). -/
theorem c6_perm_invariant :
    (∀ (pd : String → Option Int) (ms1 ms2 : List ModelConfig),
      ms1.Perm ms2 → ∀ cat : String,
        lookupGroup (fetchStatsGroups pd ms1) cat =
          lookupGroup (fetchStatsGroups pd ms2) cat) ∧
    (∀ (pd : String → Option Int) (ms : List ModelConfig),
      fetchStatsGroups pd ms = fetchStatsGroups pd ms) := by
  refine ⟨?_, fun _ _ => rfl⟩
  intro pd ms1 ms2 hperm cat
  rw [lookupGroup_fetchStatsGroups, lookupGroup_fetchStatsGroups]
  have hp : (modelsInCat cat ms1).Perm (modelsInCat cat ms2) :=
    hperm.filter _
  have hq : (modelsInCat cat ms1).foldl (fun a m => min (modelQuota m) a) 1 =
      (modelsInCat cat ms2).foldl (fun a m => min (modelQuota m) a) 1 :=
    hp.foldl_eq' (fun x _ y _ z => min_left_comm (modelQuota y) (modelQuota x) z) 1
  have hr : (modelsInCat cat ms1).foldl
        (fun o m => optMinR o (resetOf pd m)) none =
      (modelsInCat cat ms2).foldl (fun o m => optMinR o (resetOf pd m)) none :=
    hp.foldl_eq' (fun x _ y _ z =>
      optMinR_right_comm z (resetOf pd x) (resetOf pd y)) none
  have hemp : (modelsInCat cat ms1).isEmpty = (modelsInCat cat ms2).isEmpty := by
    have hlen := hp.length_eq
    rcases h1 : modelsInCat cat ms1 with _ | ⟨a, l⟩ <;>
      rcases h2 : modelsInCat cat ms2 with _ | ⟨b, k⟩ <;>
      rw [h1, h2] at hlen <;> simp_all
  rw [hemp]
  by_cases he : (modelsInCat cat ms2).isEmpty
  · rw [if_pos he, if_pos he]
  · rw [if_neg he, if_neg he]
    have : groupOfModels pd ⟨1, none⟩ (modelsInCat cat ms1) =
        groupOfModels pd ⟨1, none⟩ (modelsInCat cat ms2) := by
      unfold groupOfModels
      rw [hq, hr]
    rw [this]

/-- Claim C6 witness. -/
theorem c6_witness :
    lookupGroup (fetchStatsGroups (fun _ => none)
        [⟨"Gemini 3 Pro (High)", some ⟨some (JSNum.finite (mkRat 8 10)), none⟩⟩,
         ⟨"Claude Sonnet", some ⟨some (JSNum.finite (mkRat 5 10)), none⟩⟩])
      CATEGORY_GEMINI_PRO =
    lookupGroup (fetchStatsGroups (fun _ => none)
        [⟨"Claude Sonnet", some ⟨some (JSNum.finite (mkRat 5 10)), none⟩⟩,
         ⟨"Gemini 3 Pro (High)", some ⟨some (JSNum.finite (mkRat 8 10)), none⟩⟩])
      CATEGORY_GEMINI_PRO :=
  c6_perm_invariant.1 (fun _ => none) _ _
    (List.Perm.swap
      ⟨"Claude Sonnet", some ⟨some (JSNum.finite (mkRat 5 10)), none⟩⟩
      ⟨"Gemini 3 Pro (High)", some ⟨some (JSNum.finite (mkRat 8 10)), none⟩⟩ [])
    CATEGORY_GEMINI_PRO

/-! # Claim C10 -/

/-- Claim C10: every category group produced by the aggregation has quota
at most `1`, because the fold starts each category at `1` and a model can
only lower it; in particular a category whose only model reports fraction
`3/2` is reported with quota `1`. -/
theorem c10_quota_le_one :
    (∀ (pd : String → Option Int) (ms : List ModelConfig) (cat : String)
      (g : QuotaGroup),
      lookupGroup (fetchStatsGroups pd ms) cat = some g → g.quota ≤ 1) ∧
    lookupGroup (fetchStatsGroups (fun _ => none)
        [⟨"some model", some ⟨some (JSNum.finite (mkRat 3 2)), none⟩⟩])
      CATEGORY_CLAUDE_GPT = some ⟨1, none⟩ := by
  constructor
  · intro pd ms cat g hg
    rw [lookupGroup_fetchStatsGroups] at hg
    by_cases he : (modelsInCat cat ms).isEmpty
    · rw [if_pos he] at hg
      exact absurd hg (by simp)
    · rw [if_neg he] at hg
      have hgr : groupOfModels pd ⟨1, none⟩ (modelsInCat cat ms) = g :=
        Option.some.inj hg
      subst hgr
      exact foldl_min_le_init _ 1
  · decide

/-- Claim C10 witness. -/
theorem c10_witness :
    (⟨1, none⟩ : QuotaGroup).quota ≤ 1 :=
  c10_quota_le_one.1 (fun _ => none)
    [⟨"some model", some ⟨some (JSNum.finite (mkRat 3 2)), none⟩⟩]
    CATEGORY_CLAUDE_GPT ⟨1, none⟩ (by decide)

/-! # Claim C2 -/

/-- Claim C2 counterexample.  The claim says a process containing only the
credential-flag marker is selected only when no candidate anywhere in the
list contains the product-name marker.  `findAntigravityProcess` actually
takes the first process containing either marker: below, the first process
has only `--csrf_token` and is selected even though the second contains
`antigravity`. -/
theorem c2_counterexample :
    findAntigravityProcess
        [⟨10, "/opt/ls/language_server --csrf_token=abc"⟩,
         ⟨11, "/opt/antigravity/language_server --csrf_token=def"⟩] =
      Except.ok ⟨10, "/opt/ls/language_server --csrf_token=abc"⟩ ∧
    strContains "/opt/ls/language_server --csrf_token=abc"
      PROCESS_IDENTIFIER_ANTIGRAVITY = false ∧
    strContains "/opt/antigravity/language_server --csrf_token=def"
      PROCESS_IDENTIFIER_ANTIGRAVITY = true := by
  exact ⟨by decide, by decide, by decide⟩

/-- Claim C2, amended: `findAntigravityProcess` selects the first process
(in enumeration order) whose command line contains the product-name marker
or the credential-flag marker, with no preference between the two markers;
it fails with the process-not-found error exactly when no process contains
either marker. -/
theorem c2_first_either_marker :
    (∀ (pre post : List ProcessInfo) (p : ProcessInfo),
      (∀ q ∈ pre, antigravityPred q = false) → antigravityPred p = true →
        findAntigravityProcess (pre ++ p :: post) = Except.ok p) ∧
    (∀ ps : List ProcessInfo, (∀ q ∈ ps, antigravityPred q = false) →
      findAntigravityProcess ps = Except.error processNotFoundMsg) := by
  constructor
  · intro pre post p hpre hp
    induction pre with
    | nil => simp [findAntigravityProcess, List.find?, hp]
    | cons q rest ih =>
      have hq : antigravityPred q = false := hpre q (List.mem_cons_self q rest)
      have hrest : ∀ r ∈ rest, antigravityPred r = false := fun r hr =>
        hpre r (List.mem_cons_of_mem q hr)
      have ihr := ih hrest
      simp only [findAntigravityProcess, List.cons_append, List.find?, hq] at ihr ⊢
      exact ihr
  · intro ps hps
    have hfind : ps.find? antigravityPred = none :=
      List.find?_eq_none.mpr (fun q hq => by simp [hps q hq])
    simp [findAntigravityProcess, hfind]

/-- Claim C2 witness. -/
theorem c2_witness :
    findAntigravityProcess
        ([⟨7, "/usr/bin/editor"⟩] ++
          ⟨8, "/opt/antigravity/language_server --csrf_token=tok"⟩ ::
            [⟨9, "ls --csrf_token=zzz"⟩]) =
      Except.ok ⟨8, "/opt/antigravity/language_server --csrf_token=tok"⟩ :=
  c2_first_either_marker.1 [⟨7, "/usr/bin/editor"⟩]
    [⟨9, "ls --csrf_token=zzz"⟩]
    ⟨8, "/opt/antigravity/language_server --csrf_token=tok"⟩
    (by decide) (by decide)

/-! # Claim C9 -/

/-- Claim C9: after `n` consecutive refresh failures the scheduled delay
is `FAILED_REFRESH_DELAY_MS * 2 ^ (n - 1)` capped at
`MAX_FAILED_REFRESH_DELAY_MS` (the failure counter after `n` consecutive
failures being `n`), a successful refresh resets the counter to `0`, and
the next failure after a success again uses the base delay
`FAILED_REFRESH_DELAY_MS * 2 ^ 0`. -/
theorem c9_backoff (cfg n m : Nat) (hn : 1 ≤ n) :
    failStreakCounter cfg n = n ∧
    (scheduleNext cfg (failStreakCounter cfg (n - 1)) false).2 =
      min (FAILED_REFRESH_DELAY_MS * 2 ^ (n - 1)) MAX_FAILED_REFRESH_DELAY_MS ∧
    (scheduleNext cfg m true).1 = 0 ∧
    (scheduleNext cfg (scheduleNext cfg m true).1 false).2 =
      FAILED_REFRESH_DELAY_MS * 2 ^ 0 := by
  have hcounter : ∀ k, failStreakCounter cfg k = k := by
    intro k
    induction k with
    | zero => rfl
    | succ k ih => simp [failStreakCounter, scheduleNext, ih]
  refine ⟨hcounter n, ?_, by simp [scheduleNext],
    by simp [scheduleNext, FAILED_REFRESH_DELAY_MS, MAX_FAILED_REFRESH_DELAY_MS]⟩
  rw [hcounter (n - 1)]
  have harith : n - 1 + 1 - 1 = n - 1 := by omega
  simp [scheduleNext, harith]

/-- Claim C9 witness: three consecutive failures give delay
`5000 * 2 ^ 2 = 20000` (below the cap), and after a success the next
failure uses `5000 * 2 ^ 0`. -/
theorem c9_witness :
    failStreakCounter 60 3 = 3 ∧
    (scheduleNext 60 (failStreakCounter 60 (3 - 1)) false).2 =
      min (FAILED_REFRESH_DELAY_MS * 2 ^ (3 - 1)) MAX_FAILED_REFRESH_DELAY_MS ∧
    (scheduleNext 60 7 true).1 = 0 ∧
    (scheduleNext 60 (scheduleNext 60 7 true).1 false).2 =
      FAILED_REFRESH_DELAY_MS * 2 ^ 0 :=
  c9_backoff 60 3 7 (by decide)

/-! # Claim C3 -/

/-- Claim C3 counterexample.  The claim says a failed full-path refresh
never updates the cached connection.  But `executeRefresh` populates the
cache as soon as port validation succeeds, before the final stats fetch:
in the environment below every discovery step succeeds and the final
fetch fails, so the refresh fails while the cache changes from `none` to
the newly discovered connection. -/
theorem c3_counterexample :
    (executeRefresh c3Env c3State).lastRefreshSucceeded = false ∧
    c3State.cachedConnection = none ∧
    (executeRefresh c3Env c3State).cachedConnection =
      some ⟨4240, "abc", 1000⟩ := by
  exact ⟨by decide, by decide, by decide⟩

/-- Claim C3, amended: a full-path refresh that fails at the process
query, token extraction, port query (error or empty), or port validation
leaves the state's cached connection unchanged (`refreshFailed` touches
only the success flag); but once port validation succeeds the cache is
updated to the newly validated connection even if the final stats fetch
then fails.  A refresh entered with no valid cache runs exactly this full
path. -/
theorem c3_cache_on_failure :
    (∀ s : ExtState, (refreshFailed s).cachedConnection = s.cachedConnection) ∧
    (∀ (env : RefreshEnv) (s : ExtState),
      env.useMockData = false → isCacheValid env.now s.cachedConnection = false →
        executeRefresh env s = fullRediscovery env s) ∧
    (∀ (env : RefreshEnv) (s : ExtState) (e : String),
      env.findProcessR = Except.error e →
        fullRediscovery env s = refreshFailed s) ∧
    (∀ (env : RefreshEnv) (s : ExtState) (p : ProcessInfo),
      env.findProcessR = Except.ok p → extractCsrfToken p.cmd = none →
        fullRediscovery env s = refreshFailed s) ∧
    (∀ (env : RefreshEnv) (s : ExtState) (p : ProcessInfo) (tok e : String),
      env.findProcessR = Except.ok p → extractCsrfToken p.cmd = some tok →
      env.findPortsR p.pid = Except.error e →
        fullRediscovery env s = refreshFailed s) ∧
    (∀ (env : RefreshEnv) (s : ExtState) (p : ProcessInfo) (tok : String),
      env.findProcessR = Except.ok p → extractCsrfToken p.cmd = some tok →
      env.findPortsR p.pid = Except.ok [] →
        fullRediscovery env s = refreshFailed s) ∧
    (∀ (env : RefreshEnv) (s : ExtState) (p : ProcessInfo) (tok e : String)
      (ports : List Int),
      env.findProcessR = Except.ok p → extractCsrfToken p.cmd = some tok →
      env.findPortsR p.pid = Except.ok ports → ports.isEmpty = false →
      env.findValidPortR ports tok = Except.error e →
        fullRediscovery env s = refreshFailed s) ∧
    (∀ (env : RefreshEnv) (s : ExtState) (p : ProcessInfo) (tok e : String)
      (ports : List Int) (port : Int),
      env.findProcessR = Except.ok p → extractCsrfToken p.cmd = some tok →
      env.findPortsR p.pid = Except.ok ports → ports.isEmpty = false →
      env.findValidPortR ports tok = Except.ok port →
      env.fetchStatsFreshR port tok = Except.error e →
        fullRediscovery env s =
          refreshFailed { s with
            cachedConnection := some ⟨port, tok, env.now⟩ }) := by
  refine ⟨fun s => rfl, ?_, ?_, ?_, ?_, ?_, ?_, ?_⟩
  · intro env s hmock hvalid
    cases hc : s.cachedConnection with
    | none => simp [executeRefresh, hmock, hc]
    | some c =>
      rw [hc] at hvalid
      simp [executeRefresh, hmock, hc, hvalid]
  · intro env s e h
    simp [fullRediscovery, h]
  · intro env s p hp htok
    simp [fullRediscovery, hp, htok]
  · intro env s p tok e hp htok hports
    simp [fullRediscovery, hp, htok, hports]
  · intro env s p tok hp htok hports
    simp [fullRediscovery, hp, htok, hports]
  · intro env s p tok e ports hp htok hports hne hfvp
    simp [fullRediscovery, hp, htok, hports, hne, hfvp]
  · intro env s p tok e ports port hp htok hports hne hfvp hfetch
    simp [fullRediscovery, hp, htok, hports, hne, hfvp, hfetch]

/-- Claim C3 witness. -/
theorem c3_witness :
    executeRefresh c3Env c3State = fullRediscovery c3Env c3State ∧
    fullRediscovery c3Env c3State =
      refreshFailed { c3State with
        cachedConnection := some ⟨4240, "abc", c3Env.now⟩ } :=
  ⟨c3_cache_on_failure.2.1 c3Env c3State rfl rfl,
    c3_cache_on_failure.2.2.2.2.2.2.2 c3Env c3State
      ⟨42, "language_server --csrf_token=abc"⟩ "abc"
      "HTTP request failed with status 500" [4240] 4240
      rfl (by decide) rfl (by decide) rfl rfl⟩

/-! # Lemmas about the port-validation loop -/

theorem setErr_fresh (m : List (Int × String)) (p : Int) (s : String)
    (h : ∀ x ∈ m, x.1 ≠ p) : setErr m p s = m ++ [(p, s)] := by
  induction m with
  | nil => rfl
  | cons x rest ih =>
    obtain ⟨q, t⟩ := x
    have hq : q ≠ p := h (q, t) (List.mem_cons_self _ _)
    simp only [setErr, if_neg hq, List.cons_append]
    rw [ih (fun y hy => h y (List.mem_cons_of_mem _ hy))]

theorem foldl_setErr_fresh (pr : Int → Option String) :
    ∀ (ports : List Int) (acc : List (Int × String)),
      ports.Nodup → (∀ p ∈ ports, ∀ x ∈ acc, x.1 ≠ p) →
      ports.foldl
          (fun m p => match pr p with | some s => setErr m p s | none => m)
          acc =
        acc ++ ports.filterMap (fun p => (pr p).map (fun s => (p, s))) := by
  intro ports
  induction ports with
  | nil => intro acc _ _; simp
  | cons p0 rest ih =>
    intro acc hnd hfresh
    have hnd2 := (List.nodup_cons.mp hnd).2
    have hp0 := (List.nodup_cons.mp hnd).1
    rcases h0 : pr p0 with _ | s0
    · have step : (p0 :: rest).foldl
          (fun m p => match pr p with | some s => setErr m p s | none => m)
          acc =
          rest.foldl
            (fun m p => match pr p with | some s => setErr m p s | none => m)
            acc := by
        simp [List.foldl_cons, h0]
      rw [step, ih acc hnd2
        (fun p hp x hx => hfresh p (List.mem_cons_of_mem _ hp) x hx)]
      simp [h0]
    · have hfreshacc : ∀ x ∈ acc, x.1 ≠ p0 :=
        fun x hx => hfresh p0 (List.mem_cons_self _ _) x hx
      have step : (p0 :: rest).foldl
          (fun m p => match pr p with | some s => setErr m p s | none => m)
          acc =
          rest.foldl
            (fun m p => match pr p with | some s => setErr m p s | none => m)
            (acc ++ [(p0, s0)]) := by
        simp [List.foldl_cons, h0, setErr_fresh acc p0 s0 hfreshacc]
      rw [step, ih (acc ++ [(p0, s0)]) hnd2 ?fresh]
      · simp [h0]
      case fresh =>
        intro p hp x hx
        rcases List.mem_append.mp hx with hx1 | hx2
        · exact hfresh p (List.mem_cons_of_mem _ hp) x hx1
        · have hxe : x = (p0, s0) := by simpa using hx2
          subst hxe
          intro hcontra
          have hpp : p0 = p := hcontra
          apply hp0
          rw [hpp]
          exact hp

theorem roundErrs_eq_filterMap (pr : Int → Option String) (ports : List Int)
    (hnd : ports.Nodup) :
    roundErrs pr ports =
      ports.filterMap (fun p => (pr p).map (fun s => (p, s))) := by
  have h := foldl_setErr_fresh pr ports [] hnd (by simp)
  simpa [roundErrs] using h

theorem filterMap_probe_length (pr : Int → Option String) :
    ∀ ports : List Int, (∀ p ∈ ports, (pr p).isSome) →
      (ports.filterMap (fun p => (pr p).map (fun s => (p, s)))).length =
        ports.length := by
  intro ports
  induction ports with
  | nil => intro _; rfl
  | cons p0 rest ih =>
    intro h
    have h0 : (pr p0).isSome := h p0 (List.mem_cons_self _ _)
    rcases hs : pr p0 with _ | s0
    · rw [hs] at h0; exact absurd h0 (by simp)
    · simp only [List.filterMap_cons, hs, Option.map_some', List.length_cons]
      rw [ih (fun p hp => h p (List.mem_cons_of_mem _ hp))]

theorem runRound_all_fail (pr : Int → Option String) (ports : List Int)
    (h : ∀ p ∈ ports, (pr p).isSome) :
    runRound pr ports = Except.error (roundErrs pr ports) := by
  have hfind : ports.find? (fun p => (pr p).isNone) = none := by
    apply List.find?_eq_none.mpr
    intro p hp
    rcases hs : pr p with _ | s
    · have := h p hp
      rw [hs] at this
      exact absurd this (by simp)
    · simp [hs]
  simp [runRound, hfind]

theorem allNonRetriable_of_round (probe1 : Int → Option String)
    (ports : List Int) (hnd : ports.Nodup)
    (h : ∀ p ∈ ports, ∃ msg, probe1 p = some msg ∧ isNonRetriableError msg = true) :
    allNonRetriable ports (roundErrs probe1 ports) = true := by
  have hsome : ∀ p ∈ ports, (probe1 p).isSome := by
    intro p hp
    obtain ⟨msg, hm, _⟩ := h p hp
    simp [hm]
  rw [roundErrs_eq_filterMap probe1 ports hnd]
  have hlen := filterMap_probe_length probe1 ports hsome
  simp only [allNonRetriable, hlen, beq_self_eq_true, Bool.true_and]
  apply List.all_eq_true.mpr
  intro x hx
  obtain ⟨a, ha, hb⟩ := List.mem_filterMap.mp hx
  rcases hs : probe1 a with _ | s
  · rw [hs] at hb
    exact absurd hb (by simp)
  · rw [hs] at hb
    simp only [Option.map_some', Option.some.injEq] at hb
    obtain ⟨msg, hm, hnr⟩ := h a ha
    rw [hs] at hm
    have hms : s = msg := by injection hm
    subst hms
    rw [← hb]
    simpa using hnr

/-- If rounds `attempt … attempt+k-1` all fail with at least one
retriable-looking error map and round `attempt+k` fails on every port with
only non-retriable errors, the loop stops after exactly `k + 1` rounds. -/
theorem fvpLoop_error_rounds (probe : Nat → Int → Option String)
    (ports : List Int) (hnd : ports.Nodup) :
    ∀ (k attempt fuel : Nat), k < fuel →
      (∀ j < k, (∀ p ∈ ports, (probe (attempt + j) p).isSome) ∧
        allNonRetriable ports (roundErrs (probe (attempt + j)) ports) = false) →
      (∀ p ∈ ports, ∃ msg, probe (attempt + k) p = some msg ∧
        isNonRetriableError msg = true) →
      ∃ msg, fvpLoop probe ports attempt fuel = (Except.error msg, k + 1) := by
  intro k
  induction k with
  | zero =>
    intro attempt fuel hk _ hlast
    obtain ⟨f, rfl⟩ : ∃ f, fuel = f + 1 := ⟨fuel - 1, by omega⟩
    have hsome : ∀ p ∈ ports, (probe attempt p).isSome := by
      intro p hp
      obtain ⟨msg, hm, _⟩ := hlast p hp
      simp only [Nat.add_zero] at hm
      simp [hm]
    have hrr := runRound_all_fail (probe attempt) ports hsome
    have hnr := allNonRetriable_of_round (probe attempt) ports hnd
      (by simpa using hlast)
    exact ⟨portFailureMsg ports (roundErrs (probe attempt) ports),
      by simp [fvpLoop, hrr, hnr]⟩
  | succ k ih =>
    intro attempt fuel hk hmid hlast
    obtain ⟨f, rfl⟩ : ∃ f, fuel = f + 1 := ⟨fuel - 1, by omega⟩
    have h0 := hmid 0 (Nat.succ_pos k)
    have hsome0 : ∀ p ∈ ports, (probe attempt p).isSome := by
      simpa using h0.1
    have hnr0 : allNonRetriable ports (roundErrs (probe attempt) ports) = false := by
      simpa using h0.2
    have hrr := runRound_all_fail (probe attempt) ports hsome0
    have hf : f ≠ 0 := by omega
    obtain ⟨msg, hrec⟩ := ih (attempt + 1) f (by omega)
      (fun j hj => by
        have hj2 := hmid (j + 1) (by omega)
        rw [show attempt + (j + 1) = attempt + 1 + j by omega] at hj2
        exact hj2)
      (by
        intro p hp
        have h2 := hlast p hp
        rw [show attempt + (k + 1) = attempt + 1 + k by omega] at h2
        exact h2)
    exact ⟨msg, by simp [fvpLoop, hrr, hnr0, hf, hrec]⟩

/-! # Claim C8 -/

/-- Claim C8 counterexample.  The claim says that for every OS family the
port query tries at least two utilities, so that failure of one tool alone
never makes the query fail.  On darwin only `lsof` is tried: with `lsof`
broken but `ss` and `netstat` working, the darwin query fails while the
same oracle succeeds on linux. -/
theorem c8_counterexample :
    unixGetPorts "darwin" c8Exec 5 =
      Except.error "Failed to query Unix ports calling lsof: lsof unavailable" ∧
    unixGetPorts "linux" c8Exec 5 = Except.ok [4240] := by
  exact ⟨by decide, by decide⟩

/-- Claim C8, amended: on linux the query tries `ss`, `lsof`, `netstat` in
order, returns the first success, and fails only when all three fail, with
an error aggregating all three tool errors; on Windows PowerShell is tried
first with `netstat` as fallback, but a total failure reports only the
`netstat` error; on darwin a single utility (`lsof`) is used and its
failure alone fails the query. -/
theorem c8_fallback_chains :
    (∀ (exec : String → List String → Except String String) (pid : Int)
      (stdout : String),
      exec "ss" ["-tlnp"] = Except.ok stdout →
        unixGetPorts "linux" exec pid =
          Except.ok (parseUnixSsOutput stdout pid)) ∧
    (∀ (exec : String → List String → Except String String) (pid : Int)
      (e1 stdout : String),
      exec "ss" ["-tlnp"] = Except.error e1 →
      exec "lsof" (lsofArgs pid) = Except.ok stdout →
        unixGetPorts "linux" exec pid =
          Except.ok (parseUnixLsofOutput stdout)) ∧
    (∀ (exec : String → List String → Except String String) (pid : Int)
      (e1 e2 stdout : String),
      exec "ss" ["-tlnp"] = Except.error e1 →
      exec "lsof" (lsofArgs pid) = Except.error e2 →
      exec "netstat" ["-tlnp"] = Except.ok stdout →
        unixGetPorts "linux" exec pid =
          Except.ok (parseUnixNetstatOutput stdout pid)) ∧
    (∀ (exec : String → List String → Except String String) (pid : Int)
      (e1 e2 e3 : String),
      exec "ss" ["-tlnp"] = Except.error e1 →
      exec "lsof" (lsofArgs pid) = Except.error e2 →
      exec "netstat" ["-tlnp"] = Except.error e3 →
        unixGetPorts "linux" exec pid =
          Except.error ("Failed to query Unix ports. Attempts: " ++
            String.intercalate "; "
              ["ss: " ++ e1, "lsof: " ++ e2, "netstat: " ++ e3])) ∧
    (∀ (exec : String → List String → Except String String) (pid : Int)
      (e1 stdout : String),
      exec "powershell" (winPsPortArgs pid) = Except.error e1 →
      exec "netstat" ["-ano", "-p", "tcp"] = Except.ok stdout →
        windowsGetPorts exec pid =
          Except.ok (parseNetstatOutput stdout pid)) ∧
    (∀ (exec : String → List String → Except String String) (pid : Int)
      (e1 e2 : String),
      exec "powershell" (winPsPortArgs pid) = Except.error e1 →
      exec "netstat" ["-ano", "-p", "tcp"] = Except.error e2 →
        windowsGetPorts exec pid =
          Except.error ("Failed to query Windows ports: " ++ e2)) ∧
    (∀ (exec : String → List String → Except String String) (pid : Int)
      (e : String),
      exec "lsof" (lsofArgs pid) = Except.error e →
        unixGetPorts "darwin" exec pid =
          Except.error ("Failed to query Unix ports calling lsof: " ++ e)) := by
  have hlinux : ¬("linux" : String) = "darwin" := by decide
  refine ⟨?_, ?_, ?_, ?_, ?_, ?_, ?_⟩
  · intro exec pid stdout h1
    simp only [unixGetPorts, if_neg hlinux, h1]
  · intro exec pid e1 stdout h1 h2
    simp only [unixGetPorts, if_neg hlinux, h1, h2]
  · intro exec pid e1 e2 stdout h1 h2 h3
    simp only [unixGetPorts, if_neg hlinux, h1, h2, h3]
  · intro exec pid e1 e2 e3 h1 h2 h3
    simp only [unixGetPorts, if_neg hlinux, h1, h2, h3]
  · intro exec pid e1 stdout h1 h2
    simp only [windowsGetPorts, h1, h2]
  · intro exec pid e1 e2 h1 h2
    simp only [windowsGetPorts, h1, h2]
  · intro exec pid e h1
    simp only [unixGetPorts, if_pos rfl, h1, if_true]

/-- Claim C8 witness. -/
theorem c8_witness :
    unixGetPorts "linux"
        (fun cmd _ =>
          if cmd = "ss" then Except.error "spawn ss ENOENT"
          else Except.ok "x 1u IPv4 TCP 127.0.0.1:51234 (LISTEN)") 7 =
      Except.ok (parseUnixLsofOutput "x 1u IPv4 TCP 127.0.0.1:51234 (LISTEN)") :=
  c8_fallback_chains.2.1
    (fun cmd _ =>
      if cmd = "ss" then Except.error "spawn ss ENOENT"
      else Except.ok "x 1u IPv4 TCP 127.0.0.1:51234 (LISTEN)") 7
    "spawn ss ENOENT" "x 1u IPv4 TCP 127.0.0.1:51234 (LISTEN)"
    (by decide) (by decide)

/-! # Claim C4 -/

/-- Claim C4: if, before round `k`, every round failed on all ports with
an error map not classified all-non-retriable, and in round `k` every port
fails with a message matching the non-retriable pattern table, then
`findValidPort` stops after exactly `k + 1` rounds with an error, skipping
the remaining retry rounds; in particular a single port that always fails
with a 403-classified error fails after exactly one round although the
maximum attempt count is `2`. -/
theorem c4_nonretriable_stops_round :
    (∀ (probe : Nat → Int → Option String) (ports : List Int) (k : Nat),
      ports ≠ [] → ports.Nodup → k < MAX_PORT_VALIDATION_ATTEMPTS →
      (∀ j < k, (∀ p ∈ ports, (probe j p).isSome) ∧
        allNonRetriable ports (roundErrs (probe j) ports) = false) →
      (∀ p ∈ ports, ∃ msg, probe k p = some msg ∧
        isNonRetriableError msg = true) →
      ∃ msg, findValidPort probe ports = (Except.error msg, k + 1)) ∧
    findValidPort (fun _ _ => some "HTTP request failed with status 403") [80] =
      (Except.error "All 1 ports failed: HTTP request failed with status 403",
        1) ∧
    MAX_PORT_VALIDATION_ATTEMPTS = 2 := by
  refine ⟨?_, by decide, rfl⟩
  intro probe ports k hne hnd hk hmid hlast
  obtain ⟨msg, hmsg⟩ := fvpLoop_error_rounds probe ports hnd k 0
    MAX_PORT_VALIDATION_ATTEMPTS hk
    (fun j hj => by simpa using hmid j hj)
    (by simpa using hlast)
  refine ⟨msg, ?_⟩
  have hempty : ports.isEmpty = false := by
    cases ports
    · exact absurd rfl hne
    · rfl
  simp [findValidPort, hempty, hmsg]

/-- Claim C4 witness. -/
theorem c4_witness :
    ∃ msg, findValidPort (fun _ _ => some "certificate has expired") [9] =
      (Except.error msg, 0 + 1) :=
  c4_nonretriable_stops_round.1 (fun _ _ => some "certificate has expired")
    [9] 0 (by decide) (by decide) (by decide)
    (fun j hj => absurd hj (by omega))
    (fun p _ => ⟨"certificate has expired", rfl, by decide⟩)

/-! # Lemmas about the credential extractor -/

theorem csrfLit_eq :
    csrfLit = '-' :: '-' :: 'c' :: 's' :: 'r' :: 'f' :: '_' :: 't' :: 'o' ::
      'k' :: 'e' :: 'n' :: [] := rfl

theorem ciEq_self (c : Char) : ciEq c c = true := by
  simp [ciEq]

theorem matchLit_self : ∀ pat r : List Char, matchLit pat (pat ++ r) = some r := by
  intro pat
  induction pat with
  | nil => intro r; rfl
  | cons p ps ih =>
    intro r
    simp [matchLit, ciEq_self, ih]

theorem matchFormAt_none_of_head (tf : TokenForm) (c : Char) (l : List Char)
    (h : ciEq '-' c = false) : matchFormAt tf (c :: l) = none := by
  simp [matchFormAt, csrfLit_eq, matchLit, h]

theorem scanFor_append_clean (tf : TokenForm) :
    ∀ pre rest : List Char, dashFree pre = true →
      scanFor tf (pre ++ rest) = scanFor tf rest := by
  intro pre
  induction pre with
  | nil => intro rest _; rfl
  | cons c cs ih =>
    intro rest hclean
    have hc : ciEq '-' c = false := by
      have := (List.all_eq_true.mp hclean) c (List.mem_cons_self _ _)
      simpa using this
    have hcs : dashFree cs = true := by
      apply List.all_eq_true.mpr
      intro x hx
      exact (List.all_eq_true.mp hclean) x (List.mem_cons_of_mem _ hx)
    simp only [List.cons_append, scanFor, matchFormAt_none_of_head tf c _ hc]
    exact ih rest hcs

theorem noMatch_cons {tf : TokenForm} {c : Char} {l : List Char}
    (hc : matchFormAt tf (c :: l) = none)
    (hl : ∀ l2, l2 <:+ l → l2 ≠ [] → matchFormAt tf l2 = none) :
    ∀ l2, l2 <:+ (c :: l) → l2 ≠ [] → matchFormAt tf l2 = none := by
  intro l2 hs hne
  rcases List.suffix_cons_iff.mp hs with rfl | hs2
  · exact hc
  · exact hl l2 hs2 hne

theorem noMatch_clean_zone (tf : TokenForm) :
    ∀ l : List Char, dashFree l = true →
      ∀ l2, l2 <:+ l → l2 ≠ [] → matchFormAt tf l2 = none := by
  intro l
  induction l with
  | nil =>
    intro _ l2 hs hne
    exact absurd (List.suffix_nil.mp hs) hne
  | cons c cs ih =>
    intro hclean
    have hc : ciEq '-' c = false := by
      have := (List.all_eq_true.mp hclean) c (List.mem_cons_self _ _)
      simpa using this
    have hcs : dashFree cs = true := by
      apply List.all_eq_true.mpr
      intro x hx
      exact (List.all_eq_true.mp hclean) x (List.mem_cons_of_mem _ hx)
    exact noMatch_cons (matchFormAt_none_of_head tf c _ hc) (ih hcs)

theorem scanFor_eq_none (tf : TokenForm) :
    ∀ l : List Char,
      (∀ l2, l2 <:+ l → l2 ≠ [] → matchFormAt tf l2 = none) →
      scanFor tf l = none := by
  intro l
  induction l with
  | nil => intro _; rfl
  | cons c cs ih =>
    intro h
    have hc : matchFormAt tf (c :: cs) = none :=
      h (c :: cs) (List.suffix_refl _) (by simp)
    simp only [scanFor, hc]
    exact ih (fun l2 hs hne => h l2 (hs.trans (List.suffix_cons c cs)) hne)

theorem scanFor_head_some (tf : TokenForm) (l : List Char) (r : List Char)
    (h : matchFormAt tf l = some r) : scanFor tf l = some r := by
  cases l with
  | nil =>
    exact absurd h (by simp [matchFormAt, csrfLit_eq, matchLit])
  | cons c cs => simp [scanFor, h]

theorem noDDash_tail (a : Char) (l : List Char) (h : noDDash (a :: l) = true) :
    noDDash l = true := by
  cases l with
  | nil => rfl
  | cons b r =>
    simp only [noDDash, Bool.and_eq_true] at h
    exact h.2

theorem noDDash_head (a b : Char) (r : List Char)
    (h : noDDash (a :: b :: r) = true) (ha : ciEq '-' a = true) :
    ciEq '-' b = false := by
  simp only [noDDash, Bool.and_eq_true] at h
  have h1 := h.1
  rcases hb : ciEq '-' b
  · rfl
  · rw [ha, hb] at h1
    exact absurd h1 (by simp)

theorem noMatch_token_zone (tf : TokenForm) :
    ∀ t rest : List Char, t.all isWordHyphen = true → noDDash t = true →
      (rest = [] ∨ ∃ d ds, rest = d :: ds ∧ ciEq '-' d = false) →
      (∀ l2, l2 <:+ rest → l2 ≠ [] → matchFormAt tf l2 = none) →
      ∀ l2, l2 <:+ (t ++ rest) → l2 ≠ [] → matchFormAt tf l2 = none := by
  intro t
  induction t with
  | nil =>
    intro rest _ _ _ hrest
    exact hrest
  | cons c t2 ih =>
    intro rest hw hdd hhead hrest
    have hw2 : t2.all isWordHyphen = true := by
      apply List.all_eq_true.mpr
      intro x hx
      exact (List.all_eq_true.mp hw) x (List.mem_cons_of_mem _ hx)
    have hfull : matchFormAt tf (c :: (t2 ++ rest)) = none := by
      rcases hc : ciEq '-' c
      · exact matchFormAt_none_of_head tf c _ hc
      · cases t2 with
        | nil =>
          rcases hhead with rfl | ⟨d, ds, rfl, hd⟩
          · simp [matchFormAt, csrfLit_eq, matchLit, hc]
          · simp [matchFormAt, csrfLit_eq, matchLit, hc, hd]
        | cons d t3 =>
          have hd : ciEq '-' d = false := noDDash_head c d t3 hdd hc
          simp [matchFormAt, csrfLit_eq, matchLit, hc, hd]
    exact noMatch_cons hfull (ih rest hw2 (noDDash_tail c t2 hdd) hhead hrest)

theorem beq_false_of_wordHyphen (c q : Char) (h : isWordHyphen c = true)
    (hq : isWordHyphen q = false) : (c == q) = false := by
  rcases eq_or_ne c q with rfl | hne
  · rw [h] at hq
    exact absurd hq (by simp)
  · simp [hne]

theorem wordHyphen_not_sep (c : Char) (h : isWordHyphen c = true) :
    isSepCh c = false := by
  simp [isSepCh, isJsSpace,
    beq_false_of_wordHyphen c '=' h (by decide),
    beq_false_of_wordHyphen c ' ' h (by decide),
    beq_false_of_wordHyphen c '\t' h (by decide),
    beq_false_of_wordHyphen c '\n' h (by decide),
    beq_false_of_wordHyphen c '\r' h (by decide),
    beq_false_of_wordHyphen c '\x0b' h (by decide),
    beq_false_of_wordHyphen c '\x0c' h (by decide)]

theorem wordHyphen_not_jsSpace (c : Char) (h : isWordHyphen c = true) :
    isJsSpace c = false := by
  simp [isJsSpace,
    beq_false_of_wordHyphen c ' ' h (by decide),
    beq_false_of_wordHyphen c '\t' h (by decide),
    beq_false_of_wordHyphen c '\n' h (by decide),
    beq_false_of_wordHyphen c '\r' h (by decide),
    beq_false_of_wordHyphen c '\x0b' h (by decide),
    beq_false_of_wordHyphen c '\x0c' h (by decide)]

theorem wordHyphen_bne (c q : Char) (h : isWordHyphen c = true)
    (hq : isWordHyphen q = false) : (c != q) = true := by
  rcases eq_or_ne c q with rfl | hne
  · rw [h] at hq
    exact absurd hq (by simp)
  · simp [hne]

theorem splitRun_stop (p : Char → Bool) (c : Char) (l : List Char)
    (hc : p c = false) : splitRun p (c :: l) = ([], c :: l) := by
  simp [splitRun, hc]

theorem splitRun_eq_cons (p : Char → Bool) (c : Char) (l : List Char)
    (a b : List Char) (hc : p c = true) (h2 : splitRun p l = (a, b)) :
    splitRun p (c :: l) = (c :: a, b) := by
  simp [splitRun, hc, h2]

theorem splitRun_all_append (p : Char → Bool) :
    ∀ (t : List Char) (q : Char) (r : List Char),
      (∀ c ∈ t, p c = true) → p q = false →
      splitRun p (t ++ q :: r) = (t, q :: r) := by
  intro t
  induction t with
  | nil =>
    intro q r _ hq
    simp [splitRun, hq]
  | cons c cs ih =>
    intro q r ht hq
    have hc : p c = true := ht c (List.mem_cons_self _ _)
    rw [List.cons_append]
    exact splitRun_eq_cons p c _ _ _ hc
      (ih q r (fun x hx => ht x (List.mem_cons_of_mem _ hx)) hq)

theorem splitRun_all (p : Char → Bool) :
    ∀ t : List Char, (∀ c ∈ t, p c = true) → splitRun p t = (t, []) := by
  intro t
  induction t with
  | nil => intro _; rfl
  | cons c cs ih =>
    intro ht
    have hc : p c = true := ht c (List.mem_cons_self _ _)
    exact splitRun_eq_cons p c _ _ _ hc
      (ih (fun x hx => ht x (List.mem_cons_of_mem _ hx)))

theorem trimChars_eq_self (t : List Char)
    (h : ∀ c ∈ t, isJsSpace c = false) : trimChars t = t := by
  have h1 : t.dropWhile isJsSpace = t := by
    cases t with
    | nil => rfl
    | cons c cs => simp [List.dropWhile, h c (List.mem_cons_self _ _)]
  have h2 : t.reverse.dropWhile isJsSpace = t.reverse := by
    cases hr : t.reverse with
    | nil => rfl
    | cons c cs =>
      have hmem : c ∈ t := by
        rw [← List.mem_reverse, hr]
        exact List.mem_cons_self _ _
      simp [List.dropWhile, h c hmem]
  rw [trimChars, h1, h2, List.reverse_reverse]

theorem matchQuoted_not_at_word (q c : Char) (l : List Char)
    (hq : isWordHyphen q = false) (hc : isWordHyphen c = true) :
    matchQuoted q (c :: l) = none := by
  have hne : ¬(c = q) := by
    intro h
    subst h
    rw [hc] at hq
    exact absurd hq (by simp)
  simp [matchQuoted, hne]

/-- Successful match of a quoted body `q t q suf` with a word-and-hyphen
token `t`. -/
theorem matchQuoted_at_token (q : Char) (t suf : List Char) (hne : t ≠ [])
    (hw : t.all isWordHyphen = true) (hq : isWordHyphen q = false) :
    matchQuoted q (q :: (t ++ q :: suf)) = some t := by
  have hbody : splitRun (fun d => d != q) (t ++ q :: suf) = (t, q :: suf) := by
    apply splitRun_all_append
    · intro c hc
      exact wordHyphen_bne c q ((List.all_eq_true.mp hw) c hc) hq
    · simp
  have hte : t.isEmpty = false := by
    cases t
    · exact absurd rfl hne
    · rfl
  simp only [matchQuoted, if_pos rfl, hbody, hte, Bool.false_eq_true,
    if_false, if_true]

/-- Successful anchored match of the double-quoted form. -/
theorem matchFormAt_dqCore (t suf : List Char) (hne : t ≠ [])
    (hw : t.all isWordHyphen = true) :
    matchFormAt TokenForm.dquoted
      (csrfLit ++ '=' :: dquoteC :: (t ++ dquoteC :: suf)) = some t := by
  have hsep : splitRun isSepCh ('=' :: dquoteC :: (t ++ dquoteC :: suf)) =
      (['='], dquoteC :: (t ++ dquoteC :: suf)) :=
    splitRun_eq_cons _ _ _ _ _ (by decide)
      (splitRun_stop _ _ _ (by decide))
  simp only [matchFormAt, matchLit_self, hsep, List.isEmpty_cons,
    Bool.false_eq_true, if_false, matchBody]
  exact matchQuoted_at_token dquoteC t suf hne hw (by decide)

/-- Successful anchored match of the single-quoted form. -/
theorem matchFormAt_sqCore (t suf : List Char) (hne : t ≠ [])
    (hw : t.all isWordHyphen = true) :
    matchFormAt TokenForm.squoted
      (csrfLit ++ '=' :: squoteC :: (t ++ squoteC :: suf)) = some t := by
  have hsep : splitRun isSepCh ('=' :: squoteC :: (t ++ squoteC :: suf)) =
      (['='], squoteC :: (t ++ squoteC :: suf)) :=
    splitRun_eq_cons _ _ _ _ _ (by decide)
      (splitRun_stop _ _ _ (by decide))
  simp only [matchFormAt, matchLit_self, hsep, List.isEmpty_cons,
    Bool.false_eq_true, if_false, matchBody]
  exact matchQuoted_at_token squoteC t suf hne hw (by decide)

/-- Successful anchored match of the bare form; the token run must be
delimited on the right by the end of the string or a non-word character. -/
theorem matchFormAt_bareCore (t suf : List Char) (hne : t ≠ [])
    (hw : t.all isWordHyphen = true)
    (hsuf : suf = [] ∨ ∃ d ds, suf = d :: ds ∧ isWordHyphen d = false) :
    matchFormAt TokenForm.bare (csrfLit ++ '=' :: (t ++ suf)) = some t := by
  have hwall : ∀ c ∈ t, isWordHyphen c = true := List.all_eq_true.mp hw
  obtain ⟨c, t2, rfl⟩ : ∃ c t2, t = c :: t2 := by
    cases t with
    | nil => exact absurd rfl hne
    | cons c t2 => exact ⟨c, t2, rfl⟩
  have hc : isWordHyphen c = true := hwall c (List.mem_cons_self _ _)
  have hbody : splitRun isWordHyphen (c :: (t2 ++ suf)) = (c :: t2, suf) := by
    rw [← List.cons_append]
    rcases hsuf with rfl | ⟨d, ds, rfl, hd⟩
    · rw [List.append_nil]
      exact splitRun_all isWordHyphen (c :: t2) hwall
    · exact splitRun_all_append isWordHyphen (c :: t2) d ds hwall hd
  have hsep : splitRun isSepCh ('=' :: c :: (t2 ++ suf)) =
      (['='], c :: (t2 ++ suf)) :=
    splitRun_eq_cons _ _ _ _ _ (by decide)
      (splitRun_stop _ _ _ (wordHyphen_not_sep c hc))
  simp only [matchFormAt, matchLit_self, List.cons_append, hsep,
    List.isEmpty_cons, Bool.false_eq_true, if_false, matchBody, matchBare,
    hbody]

/-- The double- and single-quoted patterns fail at the head of a bare-form
occurrence (the body starts with a word character, not a quote). -/
theorem matchFormAt_quoted_at_bareCore (tf : TokenForm) (q : Char)
    (hq : isWordHyphen q = false)
    (htf : matchBody tf = matchQuoted q)
    (c : Char) (t2 suf : List Char) (hc : isWordHyphen c = true) :
    matchFormAt tf (csrfLit ++ '=' :: (c :: t2 ++ suf)) = none := by
  have hsep : splitRun isSepCh ('=' :: c :: (t2 ++ suf)) =
      (['='], c :: (t2 ++ suf)) :=
    splitRun_eq_cons _ _ _ _ _ (by decide)
      (splitRun_stop _ _ _ (wordHyphen_not_sep c hc))
  simp only [matchFormAt, matchLit_self, List.cons_append, hsep,
    List.isEmpty_cons, Bool.false_eq_true, if_false, htf,
    matchQuoted_not_at_word q c _ hq hc]

/-- The eleven match positions inside the tail of the flag literal all
fail (the literal does not overlap itself). -/
theorem noMatch_lit_zone (tf : TokenForm) (X : List Char)
    (hX : ∀ l2, l2 <:+ X → l2 ≠ [] → matchFormAt tf l2 = none) :
    ∀ l2, l2 <:+ ('-' :: 'c' :: 's' :: 'r' :: 'f' :: '_' :: 't' :: 'o' ::
      'k' :: 'e' :: 'n' :: X) → l2 ≠ [] → matchFormAt tf l2 = none := by
  refine noMatch_cons rfl ?_
  refine noMatch_cons rfl ?_
  refine noMatch_cons rfl ?_
  refine noMatch_cons rfl ?_
  refine noMatch_cons rfl ?_
  refine noMatch_cons rfl ?_
  refine noMatch_cons rfl ?_
  refine noMatch_cons rfl ?_
  refine noMatch_cons rfl ?_
  refine noMatch_cons rfl ?_
  refine noMatch_cons rfl ?_
  exact hX

/-- A pattern that fails at the head of a single-quoted occurrence fails
everywhere in it. -/
theorem scanFor_sqCore_none (tf : TokenForm) (t suf : List Char)
    (hfail0 : matchFormAt tf
      (csrfLit ++ '=' :: squoteC :: (t ++ squoteC :: suf)) = none)
    (hw : t.all isWordHyphen = true) (hdd : noDDash t = true)
    (hsuf : dashFree suf = true) :
    scanFor tf (csrfLit ++ '=' :: squoteC :: (t ++ squoteC :: suf)) = none := by
  apply scanFor_eq_none
  have hzone : ∀ l2, l2 <:+ (t ++ squoteC :: suf) → l2 ≠ [] →
      matchFormAt tf l2 = none := by
    apply noMatch_token_zone tf t (squoteC :: suf) hw hdd
    · exact Or.inr ⟨squoteC, suf, rfl, by decide⟩
    · exact noMatch_cons rfl (noMatch_clean_zone tf suf hsuf)
  rw [csrfLit_eq]
  simp only [List.cons_append, List.nil_append]
  exact noMatch_cons hfail0
    (noMatch_lit_zone tf _ (noMatch_cons rfl (noMatch_cons rfl hzone)))

/-- A pattern that fails at the head of a bare occurrence fails everywhere
in it. -/
theorem scanFor_bareCore_none (tf : TokenForm) (t suf : List Char)
    (hfail0 : matchFormAt tf (csrfLit ++ '=' :: (t ++ suf)) = none)
    (hw : t.all isWordHyphen = true) (hdd : noDDash t = true)
    (hsuf : dashFree suf = true) :
    scanFor tf (csrfLit ++ '=' :: (t ++ suf)) = none := by
  apply scanFor_eq_none
  have hhead : suf = [] ∨ ∃ d ds, suf = d :: ds ∧ ciEq '-' d = false := by
    cases suf with
    | nil => exact Or.inl rfl
    | cons d ds =>
      refine Or.inr ⟨d, ds, rfl, ?_⟩
      have := (List.all_eq_true.mp hsuf) d (List.mem_cons_self _ _)
      simpa using this
  have hzone := noMatch_token_zone tf t suf hw hdd hhead
    (noMatch_clean_zone tf suf hsuf)
  rw [csrfLit_eq]
  simp only [List.cons_append, List.nil_append]
  exact noMatch_cons hfail0 (noMatch_lit_zone tf _ (noMatch_cons rfl hzone))

theorem scanFor_none_of_no_marker (tf : TokenForm) :
    ∀ l : List Char, hasFlagMarker l = false → scanFor tf l = none := by
  intro l
  induction l with
  | nil => intro _; rfl
  | cons c cs ih =>
    intro h
    simp only [hasFlagMarker, Bool.or_eq_false_iff] at h
    have h1 : matchLit csrfLit (c :: cs) = none := by
      rcases hm : matchLit csrfLit (c :: cs) with _ | r
      · rfl
      · have := h.1
        rw [hm] at this
        exact absurd this (by simp)
    simp only [scanFor, matchFormAt, h1]
    exact ih h.2

theorem trim_of_wordHyphen (t : List Char) (hw : t.all isWordHyphen = true) :
    trimChars t = t :=
  trimChars_eq_self t
    (fun c hc => wordHyphen_not_jsSpace c ((List.all_eq_true.mp hw) c hc))

/-- Extraction of a double-quoted token. -/
theorem extract_dq_form (pre t suf : List Char) (hpre : dashFree pre = true)
    (hne : t ≠ []) (hw : t.all isWordHyphen = true) :
    extractCsrfToken (String.mk (pre ++ (dqCore t ++ suf))) =
      some (String.mk t) := by
  have hlist : dqCore t ++ suf =
      csrfLit ++ '=' :: dquoteC :: (t ++ dquoteC :: suf) := by
    simp [dqCore, List.append_assoc]
  have hscan : scanFor TokenForm.dquoted (pre ++ (dqCore t ++ suf)) = some t := by
    rw [scanFor_append_clean _ pre _ hpre, hlist]
    exact scanFor_head_some _ _ _ (matchFormAt_dqCore t suf hne hw)
  have hmk : (String.mk (pre ++ (dqCore t ++ suf))).toList =
      pre ++ (dqCore t ++ suf) := rfl
  simp only [extractCsrfToken, hmk, hscan, trim_of_wordHyphen t hw]

/-- Extraction of a single-quoted token. -/
theorem extract_sq_form (pre t suf : List Char) (hpre : dashFree pre = true)
    (hne : t ≠ []) (hw : t.all isWordHyphen = true) (hdd : noDDash t = true)
    (hsuf : dashFree suf = true) :
    extractCsrfToken (String.mk (pre ++ (sqCore t ++ suf))) =
      some (String.mk t) := by
  have hlist : sqCore t ++ suf =
      csrfLit ++ '=' :: squoteC :: (t ++ squoteC :: suf) := by
    simp [sqCore, List.append_assoc]
  have hscan1 : scanFor TokenForm.dquoted (pre ++ (sqCore t ++ suf)) = none := by
    rw [scanFor_append_clean _ pre _ hpre, hlist]
    exact scanFor_sqCore_none TokenForm.dquoted t suf rfl hw hdd hsuf
  have hscan2 : scanFor TokenForm.squoted (pre ++ (sqCore t ++ suf)) = some t := by
    rw [scanFor_append_clean _ pre _ hpre, hlist]
    exact scanFor_head_some _ _ _ (matchFormAt_sqCore t suf hne hw)
  have hmk : (String.mk (pre ++ (sqCore t ++ suf))).toList =
      pre ++ (sqCore t ++ suf) := rfl
  simp only [extractCsrfToken, hmk, hscan1, hscan2, trim_of_wordHyphen t hw]

/-- Extraction of a bare token. -/
theorem extract_bare_form (pre t suf : List Char) (hpre : dashFree pre = true)
    (hne : t ≠ []) (hw : t.all isWordHyphen = true) (hdd : noDDash t = true)
    (hsuf : dashFree suf = true)
    (hbound : suf = [] ∨ ∃ d ds, suf = d :: ds ∧ isWordHyphen d = false) :
    extractCsrfToken (String.mk (pre ++ (bareCore t ++ suf))) =
      some (String.mk t) := by
  obtain ⟨c, t2, rfl⟩ : ∃ c t2, t = c :: t2 := by
    cases t with
    | nil => exact absurd rfl hne
    | cons c t2 => exact ⟨c, t2, rfl⟩
  have hc : isWordHyphen c = true :=
    (List.all_eq_true.mp hw) c (List.mem_cons_self _ _)
  have hlist : bareCore (c :: t2) ++ suf =
      csrfLit ++ '=' :: (c :: t2 ++ suf) := by
    simp [bareCore, List.append_assoc]
  have hscan1 : scanFor TokenForm.dquoted
      (pre ++ (bareCore (c :: t2) ++ suf)) = none := by
    rw [scanFor_append_clean _ pre _ hpre, hlist]
    exact scanFor_bareCore_none TokenForm.dquoted (c :: t2) suf
      (matchFormAt_quoted_at_bareCore TokenForm.dquoted dquoteC (by decide)
        rfl c t2 suf hc) hw hdd hsuf
  have hscan2 : scanFor TokenForm.squoted
      (pre ++ (bareCore (c :: t2) ++ suf)) = none := by
    rw [scanFor_append_clean _ pre _ hpre, hlist]
    exact scanFor_bareCore_none TokenForm.squoted (c :: t2) suf
      (matchFormAt_quoted_at_bareCore TokenForm.squoted squoteC (by decide)
        rfl c t2 suf hc) hw hdd hsuf
  have hscan3 : scanFor TokenForm.bare
      (pre ++ (bareCore (c :: t2) ++ suf)) = some (c :: t2) := by
    rw [scanFor_append_clean _ pre _ hpre, hlist]
    exact scanFor_head_some _ _ _ (matchFormAt_bareCore (c :: t2) suf hne hw hbound)
  have hmk : (String.mk (pre ++ (bareCore (c :: t2) ++ suf))).toList =
      pre ++ (bareCore (c :: t2) ++ suf) := rfl
  simp only [extractCsrfToken, hmk, hscan1, hscan2, hscan3,
    trim_of_wordHyphen (c :: t2) hw]

/-! # Claim C7 -/

/-- Claim C7 counterexample.  The claim says the extractor applied to any
command line containing `--csrf_token="t"` returns `t`.  A command line
containing two differently-valued occurrences of the flag refutes this:
the string below contains `--csrf_token="bb"`, yet the extractor returns
the leftmost match `"aa"`. -/
theorem c7_counterexample :
    strContains "--csrf_token=\"aa\" --csrf_token=\"bb\""
      "--csrf_token=\"bb\"" = true ∧
    extractCsrfToken "--csrf_token=\"aa\" --csrf_token=\"bb\"" = some "aa" ∧
    ("aa" : String) ≠ "bb" := by
  exact ⟨by decide, by decide, by decide⟩

/-- Claim C7, amended: the extractor returns the token of the leftmost
match, pattern-priority double-quoted, then single-quoted, then bare.  For
a command line with a single flag occurrence — no hyphen outside it and no
two adjacent hyphens inside the token — it returns exactly the token: for
every nonempty token `t` of word characters and hyphens, and every
hyphen-free prefix and suffix (the bare form additionally requires the
suffix not to begin with a word character or hyphen, and the quoted forms
require no double hyphen inside `t` only to rule out a spurious flag
occurrence inside the quotes), the double-quoted, single-quoted and bare
spellings of the flag all yield `t`; a command line not containing the
flag marker at all yields absent. -/
theorem c7_extractor_forms :
    (∀ pre t suf : List Char, dashFree pre = true → t ≠ [] →
      t.all isWordHyphen = true →
      extractCsrfToken (String.mk (pre ++ (dqCore t ++ suf))) =
        some (String.mk t)) ∧
    (∀ pre t suf : List Char, dashFree pre = true → t ≠ [] →
      t.all isWordHyphen = true → noDDash t = true → dashFree suf = true →
      extractCsrfToken (String.mk (pre ++ (sqCore t ++ suf))) =
        some (String.mk t)) ∧
    (∀ pre t suf : List Char, dashFree pre = true → t ≠ [] →
      t.all isWordHyphen = true → noDDash t = true → dashFree suf = true →
      (suf = [] ∨ ∃ d ds, suf = d :: ds ∧ isWordHyphen d = false) →
      extractCsrfToken (String.mk (pre ++ (bareCore t ++ suf))) =
        some (String.mk t)) ∧
    (∀ cmd : String, hasFlagMarker cmd.toList = false →
      extractCsrfToken cmd = none) := by
  refine ⟨extract_dq_form, extract_sq_form, extract_bare_form, ?_⟩
  intro cmd h
  simp only [extractCsrfToken, scanFor_none_of_no_marker _ _ h]

/-- Claim C7 witness. -/
theorem c7_witness :
    extractCsrfToken (String.mk ("ls ".toList ++
        (dqCore "abc-123".toList ++ " --x".toList))) =
      some (String.mk "abc-123".toList) ∧
    extractCsrfToken (String.mk ("ls ".toList ++
        (sqCore "abc-123".toList ++ " x".toList))) =
      some (String.mk "abc-123".toList) ∧
    extractCsrfToken (String.mk ("ls ".toList ++
        (bareCore "abc-123".toList ++ " x".toList))) =
      some (String.mk "abc-123".toList) ∧
    extractCsrfToken "no flag here" = none :=
  ⟨c7_extractor_forms.1 _ _ _ (by decide) (by decide) (by decide),
    c7_extractor_forms.2.1 _ _ _ (by decide) (by decide) (by decide)
      (by decide) (by decide),
    c7_extractor_forms.2.2.1 _ _ _ (by decide) (by decide) (by decide)
      (by decide) (by decide) (Or.inr ⟨' ', "x".toList, rfl, by decide⟩),
    c7_extractor_forms.2.2.2 "no flag here" (by decide)⟩

end AgUsage
